import Mathlib

/-!
# wb2-cli: dependency resolver and configuration aggregator

A shallow embedding of `resolveDependencies`, `isValidProjectName`,
`selectComponents`, `selectComponentsWindows` and `runNew` (cmd/new.go) and of
`Generator.prepareProjectData`, `uniqueStrings` and `Generator.GenerateProject`
(internal/generator/generator.go), together with the properties the specification
states about them.

Conventions of the embedding

* A Go `map[string]V` is an association list with pairwise distinct keys
  (`GoMap V`).  `m.lookup k` is the two-result read `v, ok := m[k]`, `m.get k`
  the one-result read `m[k]` (zero value when the key is absent) and
  `m.insert k v` the write `m[k] = v`.
* A Go slice is a `List`; `append(xs, ys...)` is `xs ++ ys`.
* The `for len(toResolve) > 0` loop is run with an explicit iteration budget;
  the budget computed by `resolveFuel` is shown to be always sufficient.
* Go leaves the iteration order of a map unspecified.  The embedding iterates
  in the order of the association list; the general statements about a list
  obtained by ranging over a map speak of its members and its length only, and
  the concrete evaluations show that list in the order of the embedding.
* `strings.ToLower` takes Go's rune mapping `unicode.ToLower` as a parameter, and
  `strings.TrimSpace` the predicate `unicode.IsSpace`, so the general statements
  hold for whatever they are.
* The terminal is the sequence of what the successive reads deliver, and the disk
  is a value passed through `GenerateProject` and `runNew`.  Printing is left out.
-/

set_option autoImplicit false

namespace Wb2

/-! ## Go maps -/

/-- A Go `map[string]V`. -/
abbrev GoMap (V : Type) := AList (fun _ : String => V)

/-- The one-result read `m[k]`: the zero value of `V` when `k` is absent. -/
def GoMap.get {V : Type} [Inhabited V] (m : GoMap V) (k : String) : V :=
  (m.lookup k).getD default

/-! ## internal/config/config.go -/

/-- The struct `config.Component`. -/
structure Component where
  Name : String := ""
  Description : String := ""
  Category : String := ""
  Dependencies : List String := []
  SDKComponents : List String := []
  IncludeComponents : List String := []
  NetworkComponents : List String := []
  BLSysComponents : List String := []
  VFSComponents : List String := []
  MQTTComponents : List String := []
  ConfigFlags : GoMap String := ∅
  TemplateFiles : List String := []
deriving Inhabited, DecidableEq

/-! ## cmd/new.go: resolveDependencies -/

/-- The first loop of `resolveDependencies`:
`for _, comp := range allComponents { componentMap[comp.Name] = comp }`. -/
def componentMapOf (allComponents : List Component) : GoMap Component :=
  allComponents.foldl (fun m comp => m.insert comp.Name comp) ∅

/-- How the work-queue loop is left: through `return nil, fmt.Errorf(...)`
(carrying the formatted message) or through its condition becoming false. -/
inductive LoopExit where
  | unknownComponent (msg : String)
  | finished (resolved : GoMap Bool)
deriving DecidableEq

/-- The inner loop
`for _, dep := range comp.Dependencies { if !resolved[dep] { toResolve = append(toResolve, dep) } }`. -/
def pushDependencies (resolved : GoMap Bool) (toResolve : List String)
    (deps : List String) : List String :=
  deps.foldl (fun q dep => if !resolved.get dep then q ++ [dep] else q) toResolve

/-- The loop `for len(toResolve) > 0 { ... }` of `resolveDependencies`, with an
iteration budget; `none` means the budget ran out before the loop was left. -/
def resolveLoop (componentMap : GoMap Component) :
    Nat → GoMap Bool → List String → Option LoopExit
  | 0, _, _ => none
  | _ + 1, resolved, [] => some (LoopExit.finished resolved)
  | fuel + 1, resolved, compName :: toResolve =>
    if resolved.get compName then
      resolveLoop componentMap fuel resolved toResolve
    else
      match componentMap.lookup compName with
      | none => some (LoopExit.unknownComponent ("未知的组件: " ++ compName))
      | some comp =>
        resolveLoop componentMap fuel (resolved.insert compName true)
          (pushDependencies (resolved.insert compName true) toResolve comp.Dependencies)

/-- An iteration budget that is enough for every catalog and selection
(see `resolveLoop_fuel_enough`). -/
def resolveFuel (allComponents : List Component) (selected : List String) : Nat :=
  selected.length
    + ((allComponents.map (fun c => c.Dependencies.length)).sum + 1) * allComponents.length
    + 1

/-- The function `resolveDependencies`.  The inner value is Go's result pair
`(components, err)`, where `none` stands for `nil`; the outer `none` would mean
that the loop did not finish within `resolveFuel`. -/
def resolveDependencies (allComponents : List Component) (selected : List String) :
    Option (Option (List Component) × Option String) :=
  let componentMap := componentMapOf allComponents
  match resolveLoop componentMap (resolveFuel allComponents selected) ∅ selected with
  | none => none
  | some (LoopExit.unknownComponent msg) => some (none, some msg)
  | some (LoopExit.finished resolved) =>
    some (some (resolved.keys.map (fun name => componentMap.get name)), none)

/-- The names of a list of components. -/
def componentNames (comps : List Component) : List String :=
  comps.map (fun c => c.Name)

/-- A name is reachable from the selection when it is selected or is a declared
dependency of the catalog entry of a reachable name. -/
inductive Reachable (componentMap : GoMap Component) (selected : List String) :
    String → Prop where
  | selected {n : String} : n ∈ selected → Reachable componentMap selected n
  | dependency {n d : String} {comp : Component} :
      Reachable componentMap selected n → componentMap.lookup n = some comp →
      d ∈ comp.Dependencies → Reachable componentMap selected d

/-- The dependency edge `a → b`: the catalog entry of `a` lists `b`. -/
def depEdge (componentMap : GoMap Component) (a b : String) : Bool :=
  match componentMap.lookup a with
  | some comp => decide (b ∈ comp.Dependencies)
  | none => false

/-- Whether `a → l₀ → l₁ → ...` is a path of dependency edges. -/
def isDependencyPath (componentMap : GoMap Component) : String → List String → Bool
  | _, [] => true
  | a, b :: l => depEdge componentMap a b && isDependencyPath componentMap b l

/-- Whether the list is a dependency cycle `x₀ → x₁ → ... → xₖ → x₀`, given by its
members in order; every member has a catalog entry, which lists the next one. -/
def isDependencyCycle (componentMap : GoMap Component) : List String → Bool
  | [] => false
  | x :: xs => isDependencyPath componentMap x (xs ++ [x])

/-- The catalog of `TestResolveDependencies`. -/
def testCatalog : List Component :=
  [ { Name := "wifi", Description := "WiFi component" },
    { Name := "mqtt", Description := "MQTT component", Dependencies := ["wifi"] },
    { Name := "http", Description := "HTTP component", Dependencies := ["wifi"] },
    { Name := "ble", Description := "BLE component" } ]

/-- A catalog whose two entries depend on each other. -/
def cyclicCatalog : List Component :=
  [ { Name := "a", Dependencies := ["b"] },
    { Name := "b", Dependencies := ["a"] } ]

/-- The invariant of the work-queue loop: what holds of `resolved` and
`toResolve` at the loop head. -/
structure ResolveInv (cm : GoMap Component) (selected : List String)
    (resolved : GoMap Bool) (queue : List String) : Prop where
  allTrue : ∀ n, n ∈ resolved → resolved.get n = true
  reachable : ∀ n, n ∈ resolved → Reachable cm selected n
  known : ∀ n, n ∈ resolved → n ∈ cm
  queued : ∀ n ∈ queue, Reachable cm selected n
  seeded : ∀ n ∈ selected, n ∈ resolved ∨ n ∈ queue
  closed : ∀ n comp, n ∈ resolved → cm.lookup n = some comp →
    ∀ d ∈ comp.Dependencies, d ∈ resolved ∨ d ∈ queue


/-! ## Go's `strings` package -/

/-- The function `strings.Contains(s, substr)`: `substr` occurs in `s` as a
contiguous run. -/
def strings.Contains (s substr : String) : Bool :=
  s.data.tails.any (fun t => substr.data.isPrefixOf t)

/-- The function `strings.ToLower(s)`: every rune of `s` is replaced by its lower
case.  Go takes the lower case of a rune from the Unicode tables
(`unicode.ToLower`); that mapping is the parameter `toLowerRune`.  On ASCII
runes it is `Char.toLower`, which is what the concrete evaluations below use. -/
def strings.ToLower (toLowerRune : Char → Char) (s : String) : String :=
  String.mk (s.data.map toLowerRune)

/-! ## internal/generator/generator.go -/

/-- The struct `Generator`. -/
structure Generator where
  sdkPath : String
deriving DecidableEq

/-- The struct `ProjectData`; the defaults are Go's zero values. -/
structure ProjectData where
  ProjectName : String := ""
  SDKPath : String := ""
  Components : List Component := []
  HasWifi : Bool := false
  HasMQTT : Bool := false
  HasBLE : Bool := false
  HasHTTP : Bool := false
  HasStorage : Bool := false
  HasGPIO : Bool := false
  HasUART : Bool := false
  HasI2C : Bool := false
  HasSPI : Bool := false
  HasPWM : Bool := false
  HasADC : Bool := false
  HasTimer : Bool := false
  HasSmartconfig : Bool := false
  HasBlufi : Bool := false
  HasHTTPS : Bool := false
  HasLWIPTLS : Bool := false
  IncludeComps : List String := []
  NetworkComps : List String := []
  BLSysComps : List String := []
  VFSComps : List String := []
  MQTTComps : List String := []
  ConfigFlags : GoMap String := ∅

/-- The function `uniqueStrings`: `seen` is the set of keys of the map `seen`,
`result` the slice built so far. -/
def uniqueStrings (strs : List String) : List String :=
  (strs.foldl
    (fun (st : List String × List String) s =>
      if s ≠ "" ∧ s ∉ st.1 then (s :: st.1, st.2 ++ [s]) else st)
    ([], [])).2

/-- The local `baseIncludeComps` of `prepareProjectData`. -/
def baseIncludeComps : List String :=
  [ "freertos_riscv_ram", "bl602", "bl602_std", "newlibc", "hosal",
    "mbedtls_lts", "lwip", "vfs", "yloop", "utils", "cli",
    "blog", "blog_testc", "coredump" ]

/-- The local `baseBLSysComps` of `prepareProjectData`. -/
def baseBLSysComps : List String :=
  ["bltime", "blfdt", "blmtd", "bloop", "looprt", "loopset"]

/-- The local `baseVFSComps` of `prepareProjectData`. -/
def baseVFSComps : List String := ["romfs"]

/-- The local `wifiComps` of `prepareProjectData`. -/
def wifiComps : List String :=
  [ "wifi", "wifi_manager", "wpa_supplicant", "bl_os_adapter",
    "wifi_hosal", "lwip_dhcpd", "netutils", "blcrypto_suite",
    "rfparam_adapter_tmp" ]

/-- The loop `for k, v := range comp.ConfigFlags { data.ConfigFlags[k] = v }`. -/
def mergeConfigFlags (flags compFlags : GoMap String) : GoMap String :=
  compFlags.entries.foldl (fun m e => m.insert e.1 e.2) flags

/-- The body of the loop `for _, comp := range components` of
`prepareProjectData`. -/
def processComponent (toLowerRune : Char → Char) (data : ProjectData) (comp : Component) :
    ProjectData :=
  let compNameLower := strings.ToLower toLowerRune comp.Name
  { data with
    HasWifi := if strings.Contains compNameLower "wifi" then true else data.HasWifi
    HasMQTT := if strings.Contains compNameLower "mqtt" then true else data.HasMQTT
    HasBLE :=
      if strings.Contains compNameLower "ble" || strings.Contains compNameLower "bluetooth"
      then true else data.HasBLE
    HasHTTP := if strings.Contains compNameLower "http" then true else data.HasHTTP
    HasStorage :=
      if strings.Contains compNameLower "storage" || strings.Contains compNameLower "flash"
      then true else data.HasStorage
    HasGPIO := if strings.Contains compNameLower "gpio" then true else ProjectData.HasGPIO data
    HasUART := if strings.Contains compNameLower "uart" then true else data.HasUART
    HasI2C := if strings.Contains compNameLower "i2c" then true else data.HasI2C
    HasSPI := if strings.Contains compNameLower "spi" then true else data.HasSPI
    HasPWM := if strings.Contains compNameLower "pwm" then true else data.HasPWM
    HasADC := if strings.Contains compNameLower "adc" then true else data.HasADC
    HasTimer := if strings.Contains compNameLower "timer" then true else data.HasTimer
    HasSmartconfig :=
      if strings.Contains compNameLower "smartconfig" then true else data.HasSmartconfig
    HasBlufi := if strings.Contains compNameLower "blufi" then true else data.HasBlufi
    HasHTTPS :=
      if strings.Contains compNameLower "https" && !strings.Contains compNameLower "lwip"
      then true else data.HasHTTPS
    HasLWIPTLS :=
      if strings.Contains compNameLower "lwip_tls" || strings.Contains compNameLower "lwip_tls"
      then true else data.HasLWIPTLS
    IncludeComps := data.IncludeComps ++ comp.IncludeComponents
    NetworkComps := data.NetworkComps ++ comp.NetworkComponents
    BLSysComps := data.BLSysComps ++ comp.BLSysComponents
    VFSComps := data.VFSComps ++ comp.VFSComponents
    MQTTComps := data.MQTTComps ++ comp.MQTTComponents
    ConfigFlags := mergeConfigFlags data.ConfigFlags comp.ConfigFlags }

/-- The initial value of `data` in `prepareProjectData` with the three baseline
lists appended. -/
def seedProjectData (g : Generator) (projectName : String) (components : List Component) :
    ProjectData :=
  { ProjectName := projectName
    SDKPath := g.sdkPath
    Components := components
    IncludeComps := [] ++ baseIncludeComps
    NetworkComps := []
    BLSysComps := [] ++ baseBLSysComps
    VFSComps := [] ++ baseVFSComps
    MQTTComps := []
    ConfigFlags := ∅ }

/-- The block `if data.HasWifi { ... }` of `prepareProjectData`. -/
def applyWifi (data : ProjectData) : ProjectData :=
  if data.HasWifi then
    { data with
      IncludeComps := data.IncludeComps ++ wifiComps
      NetworkComps := data.NetworkComps ++ ["sntp", "dns_server"]
      BLSysComps := data.BLSysComps ++ ["blota", "loopadc"]
      ConfigFlags := data.ConfigFlags.insert "CONFIG_WIFI" "1" }
  else data

/-- The block `if data.HasSmartconfig { ... }` of `prepareProjectData`. -/
def applySmartconfig (data : ProjectData) : ProjectData :=
  if data.HasSmartconfig then
    { data with IncludeComps := data.IncludeComps ++ ["smartconfig_airkiss"] }
  else data

/-- The block `if data.HasMQTT { ... }` of `prepareProjectData`. -/
def applyMQTT (data : ProjectData) : ProjectData :=
  if data.HasMQTT then { data with IncludeComps := data.IncludeComps ++ ["httpc"] }
  else data

/-- The final five assignments of `prepareProjectData`. -/
def dedupLists (data : ProjectData) : ProjectData :=
  { data with
    IncludeComps := uniqueStrings data.IncludeComps
    NetworkComps := uniqueStrings data.NetworkComps
    BLSysComps := uniqueStrings data.BLSysComps
    VFSComps := uniqueStrings data.VFSComps
    MQTTComps := uniqueStrings data.MQTTComps }

/-- The method `Generator.prepareProjectData`. -/
def prepareProjectData (toLowerRune : Char → Char) (g : Generator) (projectName : String)
    (components : List Component) : ProjectData :=
  dedupLists (applyMQTT (applySmartconfig (applyWifi
    (components.foldl (processComponent toLowerRune)
      (seedProjectData g projectName components)))))

/-- Whether the lower-cased name of some component of the list contains `tok`. -/
def nameMatches (toLowerRune : Char → Char) (components : List Component) (tok : String) :
    Bool :=
  components.any (fun c => strings.Contains (strings.ToLower toLowerRune c.Name) tok)

/-- The components of `TestPrepareProjectData`. -/
def testComponents : List Component :=
  [ { Name := "wifi", Description := "WiFi component", Category := "network",
      IncludeComponents := ["wifi_station", "wifi_softap"],
      ConfigFlags := AList.singleton "CONFIG_WIFI_ENABLE" "1" },
    { Name := "gpio", Description := "GPIO component", Category := "peripheral" } ]

/-- The relation between a list `out` and the sequence `seq` it was de-duplicated
from: `out` has no token twice, it holds the non-empty tokens of `seq` and no
other, and two of its tokens stand in the order of their first occurrences in
`seq`. -/
def StableDedup (out seq : List String) : Prop :=
  out.Nodup ∧
    (∀ a, a ∈ out ↔ a ∈ seq ∧ a ≠ "") ∧
    ∀ a ∈ out, ∀ b ∈ out, (out.indexOf a < out.indexOf b ↔ seq.indexOf a < seq.indexOf b)

/-- A component named `wifi` whose flag map sets `CONFIG_WIFI` to `0`. -/
def wifiOffComponent : Component :=
  { Name := "wifi", ConfigFlags := AList.singleton "CONFIG_WIFI" "0" }

/-- A component that sets the flag `CONFIG_LOG` to `1`. -/
def gpioLogComponent : Component :=
  { Name := "gpio", ConfigFlags := AList.singleton "CONFIG_LOG" "1" }

/-- A component that sets the flag `CONFIG_LOG` to `2`. -/
def uartLogComponent : Component :=
  { Name := "uart", ConfigFlags := AList.singleton "CONFIG_LOG" "2" }

/-- Two components whose names both match the networking capability. -/
def twoWifiComponents : List Component :=
  [ { Name := "wifi", IncludeComponents := ["wifi", "wifi_manager"] },
    { Name := "WiFi_SoftAP", NetworkComponents := ["sntp"] } ]

/-- A component whose include list holds the empty token. -/
def emptyTokenComponent : Component :=
  { Name := "uart", IncludeComponents := [""] }

/-! ## cmd/new.go: isValidProjectName -/

/-- The condition under which `isValidProjectName` keeps going at the rune `r`:
`(r >= 'a' && r <= 'z') || (r >= 'A' && r <= 'Z') || (r >= '0' && r <= '9') ||
r == '_' || r == '-'`. -/
def nameRuneAllowed (r : Char) : Bool :=
  (decide ('a' ≤ r) && decide (r ≤ 'z')) || (decide ('A' ≤ r) && decide (r ≤ 'Z')) ||
    (decide ('0' ≤ r) && decide (r ≤ '9')) || r == '_' || r == '-'

/-- The loop `for _, r := range name` of `isValidProjectName` followed by its last
statement; `len` is `len(name)`. -/
def isValidProjectNameLoop (len : Nat) : List Char → Bool
  | [] => decide (len > 0)
  | r :: rest => if !nameRuneAllowed r then false else isValidProjectNameLoop len rest

/-- The function `isValidProjectName`. -/
def isValidProjectName (name : String) : Bool :=
  isValidProjectNameLoop name.utf8ByteSize name.data

/-! ## Go's `strings` package, continued -/

/-- The pieces of a rune sequence between the occurrences of the rune `sep`. -/
def splitRunes (sep : Char) : List Char → List (List Char)
  | [] => [[]]
  | c :: cs =>
    if c = sep then [] :: splitRunes sep cs
    else
      match splitRunes sep cs with
      | [] => [[c]]
      | w :: ws => (c :: w) :: ws

/-- The function `strings.Split(s, sep)` for a separator `sep` of one rune: the
substrings of `s` between the occurrences of `sep`. -/
def strings.Split (s : String) (sep : Char) : List String :=
  (splitRunes sep s.data).map String.mk

/-- The function `strings.TrimSpace(s)`: `s` without its leading and trailing white
space.  Go decides what white space is by `unicode.IsSpace`; that predicate is the
parameter `isSpace`.  The concrete evaluations below use `Char.isWhitespace`
(space, tab, carriage return, line feed). -/
def strings.TrimSpace (isSpace : Char → Bool) (s : String) : String :=
  String.mk ((s.data.dropWhile isSpace).reverse.dropWhile isSpace).reverse

/-! ## cmd/new.go: selectComponentsWindows -/

/-- The loop `for _, comp := range allComponents { if comp.Name == name { ... break } }`
of `selectComponentsWindows`: `name` is appended to `validSelections` at the first
component that bears it. -/
def appendIfKnown : List Component → List String → String → List String
  | [], validSelections, _ => validSelections
  | comp :: rest, validSelections, name =>
    if comp.Name = name then validSelections ++ [name]
    else appendIfKnown rest validSelections name

/-- The function `selectComponentsWindows`, from the call of `reader.ReadString` on;
`read` is what that call returns, the text and the error (`none` for `nil`).  The
result is Go's pair `(names, err)`, with `none` for the `nil` of `return nil, err`.
What the function prints is left out. -/
def selectComponentsWindows (isSpace : Char → Bool) (allComponents : List Component)
    (read : String × Option String) : Option (List String) × Option String :=
  match read.2 with
  | some err => (none, some err)
  | none =>
    let input := strings.TrimSpace isSpace read.1
    if input = "" then (some [], none)
    else if input = "all" then
      (some (allComponents.foldl (fun allNames comp => allNames ++ [comp.Name]) []), none)
    else
      (some ((strings.Split input ',').foldl
        (fun validSelections name =>
          if strings.TrimSpace isSpace name = "" then validSelections
          else appendIfKnown allComponents validSelections (strings.TrimSpace isSpace name))
        []), none)

/-! ## cmd/new.go: selectComponents -/

/-- The local `categoryOrder` of `selectComponents`. -/
def categoryOrder : List String :=
  ["network", "peripheral", "3rdparty", "audio", "fs", "multimedia", "system", "other"]

/-- The loop of `selectComponents` that fills `componentsByCategory`. -/
def groupByCategory (allComponents : List Component) : GoMap (List Component) :=
  allComponents.foldl
    (fun m comp =>
      let category := if comp.Category = "" then "other" else comp.Category
      m.insert category (m.get category ++ [comp]))
    ∅

/-- The loop of `selectComponents` that fills `validCategories`. -/
def validCategoriesOf (componentsByCategory : GoMap (List Component)) : List String :=
  categoryOrder.foldl
    (fun validCategories cat =>
      if (componentsByCategory.get cat).length > 0 then validCategories ++ [cat]
      else validCategories)
    []

/-- The variables the main loop of `selectComponents` changes. -/
structure MenuState where
  currentCategory : String := ""
  selectedIndex : Int := 0
  componentIndex : Int := 0
  selectedSet : GoMap Bool := ∅

/-- What one pass of the main loop gets from the terminal: a failure of
`term.MakeRaw`, a failure of `reader.ReadRune`, or the rune read together with the
two bytes `buf[0]`, `buf[1]` that `reader.Read(buf)` delivers after an ESC (zero
where it delivers none). -/
inductive TermInput where
  | makeRawError (err : String)
  | readError (err : String)
  | key (char : Char) (buf0 buf1 : Nat)

/-- How one pass of the main loop ends: the loop goes on with new values of its
variables, the function returns Go's pair `(names, err)`, or an index expression
is out of range. -/
inductive LoopPass where
  | next (st : MenuState)
  | ret (names : Option (List String)) (err : Option String)
  | indexPanic

/-- The index expression `xs[i]` for a Go `int` index; `none` when it is out of
range. -/
def goIndex {α : Type} (xs : List α) (i : Int) : Option α :=
  if 0 ≤ i then xs.get? i.toNat else none

/-- The key handling of one pass of the main loop in main-menu mode
(`currentCategory == ""`). -/
def categoryPass (validCategories : List String) (st : MenuState) (char : Char)
    (buf0 buf1 : Nat) : LoopPass :=
  let compsCount : Int := validCategories.length
  if char.toNat = 27 then
    if buf0 = 91 then
      if buf1 = 65 then
        LoopPass.next
          (if st.selectedIndex > 0 then { st with selectedIndex := st.selectedIndex - 1 }
           else st)
      else if buf1 = 66 then
        LoopPass.next
          (if st.selectedIndex < compsCount - 1 then
            { st with selectedIndex := st.selectedIndex + 1 }
           else st)
      else if buf1 = 67 then
        if st.selectedIndex < (validCategories.length : Int) then
          match goIndex validCategories st.selectedIndex with
          | none => LoopPass.indexPanic
          | some cat => LoopPass.next { st with currentCategory := cat, componentIndex := 0 }
        else LoopPass.next st
      else LoopPass.next st
    else LoopPass.next st
  else if char = '\n' ∨ char = '\r' then
    LoopPass.ret (some st.selectedSet.keys) none
  else if char = 'q' ∨ char = 'Q' then
    LoopPass.ret none (some "用户取消")
  else LoopPass.next st

/-- The key handling of one pass of the main loop in component-list mode;
`comps` is `componentsByCategory[currentCategory]`. -/
def componentPass (comps : List Component) (st : MenuState) (char : Char)
    (buf0 buf1 : Nat) : LoopPass :=
  if char.toNat = 27 then
    if buf0 = 91 then
      if buf1 = 65 then
        LoopPass.next
          (if st.componentIndex > 0 then { st with componentIndex := st.componentIndex - 1 }
           else st)
      else if buf1 = 66 then
        LoopPass.next
          (if st.componentIndex < (comps.length : Int) - 1 then
            { st with componentIndex := st.componentIndex + 1 }
           else st)
      else if buf1 = 68 then
        LoopPass.next { st with currentCategory := "", selectedIndex := 0 }
      else LoopPass.next st
    else LoopPass.next st
  else if char = ' ' then
    if st.componentIndex < (comps.length : Int) then
      match goIndex comps st.componentIndex with
      | none => LoopPass.indexPanic
      | some comp =>
        LoopPass.next
          { st with selectedSet := st.selectedSet.insert comp.Name (!st.selectedSet.get comp.Name) }
    else LoopPass.next st
  else if char = '\n' ∨ char = '\r' then
    LoopPass.next { st with currentCategory := "", selectedIndex := 0 }
  else if char = 'q' ∨ char = 'Q' then
    LoopPass.ret none (some "用户取消")
  else LoopPass.next st

/-- One pass of the main loop `for { ... }` of `selectComponents`.  What the pass
prints is left out. -/
def menuPass (componentsByCategory : GoMap (List Component)) (validCategories : List String)
    (st : MenuState) : TermInput → LoopPass
  | TermInput.makeRawError err => LoopPass.ret none (some err)
  | TermInput.readError err => LoopPass.ret none (some err)
  | TermInput.key char buf0 buf1 =>
    if st.currentCategory = "" then categoryPass validCategories st char buf0 buf1
    else componentPass (componentsByCategory.get st.currentCategory) st char buf0 buf1

/-- How a call of `selectComponents` stands once the terminal has delivered a given
sequence of inputs: it has returned Go's pair `(names, err)`, it is blocked in the
next read with the given values of its variables, or it has stopped on an index
out of range. -/
inductive SelectOutcome where
  | returned (names : Option (List String)) (err : Option String)
  | waiting (st : MenuState)
  | panicked

/-- The main loop `for { ... }` of `selectComponents`, one pass per input. -/
def menuLoop (componentsByCategory : GoMap (List Component)) (validCategories : List String) :
    MenuState → List TermInput → SelectOutcome
  | st, [] => SelectOutcome.waiting st
  | st, input :: rest =>
    match menuPass componentsByCategory validCategories st input with
    | LoopPass.next st' => menuLoop componentsByCategory validCategories st' rest
    | LoopPass.ret names err => SelectOutcome.returned names err
    | LoopPass.indexPanic => SelectOutcome.panicked

/-- What the terminal delivers to a call of `selectComponents`: `line` is what
`reader.ReadString` returns in `selectComponentsWindows`, `keys` what the
successive passes of the main loop get. -/
structure Terminal where
  line : String × Option String := ("", none)
  keys : List TermInput := []

/-- The function `selectComponents`; `interactive` is the package variable of that
name and `goos` the constant `runtime.GOOS`. -/
def selectComponents (isSpace : Char → Bool) (interactive : Bool) (goos : String)
    (allComponents : List Component) (terminal : Terminal) : SelectOutcome :=
  if !interactive then SelectOutcome.returned (some []) none
  else if goos = "windows" then
    SelectOutcome.returned (selectComponentsWindows isSpace allComponents terminal.line).1
      (selectComponentsWindows isSpace allComponents terminal.line).2
  else
    menuLoop (groupByCategory allComponents) (validCategoriesOf (groupByCategory allComponents))
      { currentCategory := "", selectedIndex := 0, componentIndex := 0, selectedSet := ∅ }
      terminal.keys

/-- The key `→`: ESC `[` `C`. -/
def keyRight : TermInput := TermInput.key (Char.ofNat 27) 91 67

/-- The key `←`: ESC `[` `D`. -/
def keyLeft : TermInput := TermInput.key (Char.ofNat 27) 91 68

/-- The key `↑`: ESC `[` `A`. -/
def keyUp : TermInput := TermInput.key (Char.ofNat 27) 91 65

/-- The key `↓`: ESC `[` `B`. -/
def keyDown : TermInput := TermInput.key (Char.ofNat 27) 91 66

/-- The space bar. -/
def keySpace : TermInput := TermInput.key ' ' 0 0

/-- The Enter key. -/
def keyEnter : TermInput := TermInput.key '\r' 0 0

/-- A catalog with one component, in the category `network`. -/
def oneWifiCatalog : List Component :=
  [{ Name := "wifi", Description := "WiFi component", Category := "network" }]

/-- A catalog with one component, in a category that is not in `categoryOrder`. -/
def customCategoryCatalog : List Component :=
  [{ Name := "lora", Description := "LoRa radio", Category := "radio" }]

/-! ## The disk, `os` and `path/filepath` -/

/-- The state of the disk as far as `runNew` and `GenerateProject` look at it: the
paths of the directories and of the regular files that exist. -/
structure FileSystem where
  dirs : List String := []
  files : List String := []
deriving DecidableEq

/-- The functions of `path/filepath` the code relies on: `join a b` is
`filepath.Join(a, b)`, and `parents p` lists the proper ancestors of the path `p`,
the directories `os.MkdirAll` has to make before `p` itself. -/
structure PathOps where
  join : String → String → String
  parents : String → List String

/-- The errors of `os.Stat`, as far as the code tells them apart: one for which
`os.IsNotExist` holds (no such file or directory), and any other (here: a parent of
the path is a regular file, `not a directory`). -/
inductive StatErr where
  | notExist
  | other
deriving DecidableEq

/-- The error `os.Stat(path)` returns, `none` for `nil`: path resolution fails with
`not a directory` when a parent of the path is a regular file; otherwise the path is
found when it is an existing directory or file, and does not exist else. -/
def os.Stat (paths : PathOps) (fs : FileSystem) (path : String) : Option StatErr :=
  if (paths.parents path).any (fun p => decide (p ∈ fs.files)) then some StatErr.other
  else if path ∈ fs.dirs ∨ path ∈ fs.files then none
  else some StatErr.notExist

/-- The function `os.IsNotExist(err)`. -/
def os.IsNotExist : Option StatErr → Bool
  | some StatErr.notExist => true
  | _ => false

/-- The function `os.MkdirAll(path, 0755)`, after its documentation: it creates the
directory `path` along with any necessary parents and returns `nil`; if `path` is
already a directory it does nothing and returns `nil`; it fails when `path` or one
of its parents is a regular file.  The result is the new state of the disk and the
error. -/
def os.MkdirAll (paths : PathOps) (fs : FileSystem) (path : String) :
    FileSystem × Option String :=
  if path ∈ fs.dirs then (fs, none)
  else if path ∈ fs.files ∨ ∃ p ∈ paths.parents path, p ∈ fs.files then
    (fs, some ("mkdir " ++ path ++ ": not a directory"))
  else
    ({ fs with dirs := fs.dirs ++ (paths.parents path).filter (fun p => p ∉ fs.dirs) ++ [path] },
      none)

/-! ## internal/generator/generator.go: GenerateProject -/

/-- The two methods `GenerateProject` hands the prepared data to.  They render
templates into files; each maps the state of the disk, a directory and the data
to the new state of the disk and an error. -/
structure TemplateStage where
  generateBaseFiles : FileSystem → String → ProjectData → FileSystem × Option String
  generateComponentFiles : FileSystem → String → ProjectData → FileSystem × Option String

/-- The method `Generator.GenerateProject`: the new state of the disk and the error
it returns. -/
def GenerateProject (paths : PathOps) (stage : TemplateStage) (toLowerRune : Char → Char)
    (g : Generator) (projectName projectPath : String) (components : List Component)
    (fs : FileSystem) : FileSystem × Option String :=
  match os.MkdirAll paths fs projectPath with
  | (fs₁, some err) => (fs₁, some ("创建项目目录失败: " ++ err))
  | (fs₁, none) =>
    match os.MkdirAll paths fs₁ (paths.join projectPath projectName) with
    | (fs₂, some err) => (fs₂, some ("创建项目子目录失败: " ++ err))
    | (fs₂, none) =>
      match stage.generateBaseFiles fs₂ projectPath
          (prepareProjectData toLowerRune g projectName components) with
      | (fs₃, some err) => (fs₃, some err)
      | (fs₃, none) =>
        stage.generateComponentFiles fs₃ (paths.join projectPath projectName)
          (prepareProjectData toLowerRune g projectName components)

/-! ## cmd/new.go: runNew -/

/-- The loop of `isValidSDKPath` over `requiredPaths`:
`if _, err := os.Stat(fullPath); os.IsNotExist(err) { return false }`, and
`return true` after it. -/
def isValidSDKPathLoop (paths : PathOps) (fs : FileSystem) (path : String) :
    List String → Bool
  | [] => true
  | req :: rest =>
    if os.IsNotExist (os.Stat paths fs (paths.join path req)) then false
    else isValidSDKPathLoop paths fs path rest

/-- The function `isValidSDKPath`. -/
def isValidSDKPath (paths : PathOps) (fs : FileSystem) (path : String) : Bool :=
  isValidSDKPathLoop paths fs path
    ["components", "applications", "make_scripts_riscv", "version.mk"]

/-- What a call of `runNew` finds around it: the package variables `projectPath`
and `interactive`, the constant `runtime.GOOS`, what `getSDKPath()` and
`config.LoadComponents()` return, what the terminal delivers, and the
collaborators of the code. -/
structure RunEnv where
  projectPath : String
  interactive : Bool
  goos : String
  getSDKPath : String × Option String
  loadComponents : List Component × Option String
  terminal : Terminal
  paths : PathOps
  stage : TemplateStage
  toLowerRune : Char → Char
  isSpace : Char → Bool

/-- How a call of `runNew` stands: it has returned the given error (`none` for
`nil`) and left the disk in the given state, it is blocked reading the terminal,
or it has stopped on an index out of range. -/
inductive RunOutcome where
  | returned (fs : FileSystem) (err : Option String)
  | blocked
  | panicked

/-- The function `runNew`, for `args[0] = projectName`, started on the disk `fs`.
What it prints is left out. -/
def runNew (env : RunEnv) (projectName : String) (fs : FileSystem) : RunOutcome :=
  if !isValidProjectName projectName then
    RunOutcome.returned fs
      (some ("无效的项目名称: " ++ projectName ++ " (只能包含字母、数字、下划线和连字符)"))
  else
    match env.getSDKPath with
    | (_, some err) => RunOutcome.returned fs (some ("获取 SDK 路径失败: " ++ err))
    | (sdkPath, none) =>
      if !isValidSDKPath env.paths fs sdkPath then
        RunOutcome.returned fs (some ("无效的 SDK 路径: " ++ sdkPath))
      else
        match env.loadComponents with
        | (_, some err) => RunOutcome.returned fs (some ("加载组件配置失败: " ++ err))
        | (components, none) =>
          match selectComponents env.isSpace env.interactive env.goos components
              env.terminal with
          | SelectOutcome.waiting _ => RunOutcome.blocked
          | SelectOutcome.panicked => RunOutcome.panicked
          | SelectOutcome.returned _ (some err) =>
            RunOutcome.returned fs (some ("选择组件失败: " ++ err))
          | SelectOutcome.returned selected none =>
            match resolveDependencies components (selected.getD []) with
            | none => RunOutcome.blocked
            | some (_, some err) => RunOutcome.returned fs (some ("解析组件依赖失败: " ++ err))
            | some (resolved, none) =>
              if os.Stat env.paths fs (env.paths.join env.projectPath projectName) = none then
                RunOutcome.returned fs
                  (some ("项目目录已存在: " ++ env.paths.join env.projectPath projectName))
              else
                match GenerateProject env.paths env.stage env.toLowerRune ⟨sdkPath⟩ projectName
                    (env.paths.join env.projectPath projectName) (resolved.getD []) fs with
                | (fs', some err) => RunOutcome.returned fs' (some ("生成项目失败: " ++ err))
                | (fs', none) => RunOutcome.returned fs' none

/-- Paths written with `/`: `join a b` puts `/` between `a` and `b`, and the parents
of a path are its proper prefixes that end before a `/`. -/
def slashPaths : PathOps where
  join := fun a b => a ++ "/" ++ b
  parents := fun p =>
    (((splitRunes '/' p.data).inits.filter
        (fun q => decide (q ≠ []) && decide (q.length < (splitRunes '/' p.data).length))).map
      (fun q => String.mk (List.intercalate ['/'] q)))

/-- A template stage that writes nothing. -/
def idleStage : TemplateStage where
  generateBaseFiles := fun fs _ _ => (fs, none)
  generateComponentFiles := fun fs _ _ => (fs, none)

/-- A disk on which the directory `out` exists. -/
def diskWithOut : FileSystem := { dirs := ["out"], files := [] }

/-- A disk with an SDK in `/sdk` and the directory `out/demo`. -/
def diskWithDemo : FileSystem :=
  { dirs := ["/sdk/components", "/sdk/applications", "/sdk/make_scripts_riscv", "out",
      "out/demo"],
    files := ["/sdk/version.mk"] }

/-- A disk on which the SDK path `plainfile` is a regular file and the directory
`out/demo` exists. -/
def diskWithPlainFile : FileSystem :=
  { dirs := ["out", "out/demo"], files := ["plainfile"] }

/-- A non-interactive run with `--path out` and an SDK in `/sdk`. -/
def quietEnv : RunEnv where
  projectPath := "out"
  interactive := false
  goos := "linux"
  getSDKPath := ("/sdk", none)
  loadComponents := (testCatalog, none)
  terminal := {}
  paths := slashPaths
  stage := idleStage
  toLowerRune := Char.toLower
  isSpace := Char.isWhitespace

/-- A non-interactive run with `--path out` and `--sdk-path plainfile`. -/
def plainFileEnv : RunEnv where
  projectPath := "out"
  interactive := false
  goos := "linux"
  getSDKPath := ("plainfile", none)
  loadComponents := (testCatalog, none)
  terminal := {}
  paths := slashPaths
  stage := idleStage
  toLowerRune := Char.toLower
  isSpace := Char.isWhitespace

/-! ## Notions used in the statements about permuted component lists and cursors -/

/-- The sixteen capability flags of a `ProjectData`, in the order of the struct. -/
def capabilityFlags (d : ProjectData) : List Bool :=
  [ d.HasWifi, d.HasMQTT, d.HasBLE, d.HasHTTP, d.HasStorage, ProjectData.HasGPIO d, d.HasUART,
    d.HasI2C, d.HasSPI, d.HasPWM, d.HasADC, d.HasTimer, d.HasSmartconfig, d.HasBlufi,
    d.HasHTTPS, d.HasLWIPTLS ]

/-- The range conditions on the two cursors of the menu: the category cursor points
at a shown category (or is `0` when none is shown), and in component-list mode the
component cursor points at a component of the current category. -/
def CursorsInRange (componentsByCategory : GoMap (List Component))
    (validCategories : List String) (st : MenuState) : Prop :=
  0 ≤ st.selectedIndex ∧
    (st.selectedIndex < (validCategories.length : Int) ∨
      (validCategories.length = 0 ∧ st.selectedIndex = 0)) ∧
    (st.currentCategory ≠ "" →
      0 ≤ st.componentIndex ∧
        st.componentIndex < ((componentsByCategory.get st.currentCategory).length : Int))

/-- A catalog with components in three categories. -/
def menuCatalog : List Component :=
  [ { Name := "wifi", Category := "network" },
    { Name := "mqtt", Category := "network", Dependencies := ["wifi"] },
    { Name := "gpio", Category := "peripheral" },
    { Name := "misc" } ]

/-- The components of `TestPrepareProjectData` in the other order. -/
def testComponentsSwapped : List Component :=
  [ { Name := "gpio", Description := "GPIO component", Category := "peripheral" },
    { Name := "wifi", Description := "WiFi component", Category := "network",
      IncludeComponents := ["wifi_station", "wifi_softap"],
      ConfigFlags := AList.singleton "CONFIG_WIFI_ENABLE" "1" } ]

/-! ## Facts about Go maps -/

theorem GoMap.get_insert {V : Type} [Inhabited V] (m : GoMap V) (k n : String) (v : V) :
    GoMap.get (m.insert k v) n = if n = k then v else m.get n := by
  unfold GoMap.get
  by_cases h : n = k
  · subst h
    simp [AList.lookup_insert]
  · simp [AList.lookup_insert_ne h, h]

theorem GoMap.mem_of_get_true (m : GoMap Bool) (n : String) (h : m.get n = true) : n ∈ m := by
  by_contra hn
  have : m.lookup n = none := AList.lookup_eq_none.mpr hn
  simp [GoMap.get, this] at h

theorem GoMap.get_of_lookup {V : Type} [Inhabited V] (m : GoMap V) (n : String) (v : V)
    (h : m.lookup n = some v) : m.get n = v := by
  simp [GoMap.get, h]

/-! ## Facts about the catalog map -/

theorem foldl_insert_lookup (cs : List Component) (m : GoMap Component)
    (hm : ∀ n c, m.lookup n = some c → c.Name = n) :
    ∀ n c, (cs.foldl (fun m comp => m.insert comp.Name comp) m).lookup n = some c →
      c.Name = n ∧ (c ∈ cs ∨ m.lookup n = some c) := by
  induction cs generalizing m with
  | nil =>
    intro n c h
    exact ⟨hm n c h, Or.inr h⟩
  | cons x xs ih =>
    intro n c h
    simp only [List.foldl_cons] at h
    have hm' : ∀ n c, (m.insert x.Name x).lookup n = some c → c.Name = n := by
      intro n c hc
      by_cases hn : n = x.Name
      · subst hn
        rw [AList.lookup_insert] at hc
        cases hc
        rfl
      · rw [AList.lookup_insert_ne hn] at hc
        exact hm n c hc
    obtain ⟨h1, h2⟩ := ih (m.insert x.Name x) hm' n c h
    refine ⟨h1, ?_⟩
    rcases h2 with h2 | h2
    · exact Or.inl (List.mem_cons_of_mem _ h2)
    · by_cases hn : n = x.Name
      · subst hn
        rw [AList.lookup_insert] at h2
        cases h2
        exact Or.inl (List.mem_cons_self _ _)
      · rw [AList.lookup_insert_ne hn] at h2
        exact Or.inr h2

theorem lookup_componentMapOf {cs : List Component} {n : String} {c : Component}
    (h : (componentMapOf cs).lookup n = some c) : c.Name = n ∧ c ∈ cs := by
  have := foldl_insert_lookup cs ∅ (by intro n c hc; simp at hc) n c h
  refine ⟨this.1, ?_⟩
  rcases this.2 with h2 | h2
  · exact h2
  · simp at h2

theorem foldl_insert_keys_length (cs : List Component) (m : GoMap Component) :
    (cs.foldl (fun m comp => m.insert comp.Name comp) m).keys.length
      ≤ m.keys.length + cs.length := by
  induction cs generalizing m with
  | nil => simp
  | cons x xs ih =>
    simp only [List.foldl_cons, List.length_cons]
    have h1 := ih (m.insert x.Name x)
    have h2 : (m.insert x.Name x).keys.length ≤ m.keys.length + 1 := by
      rw [AList.keys_insert, List.length_cons]
      have := List.length_erase_le x.Name m.keys
      omega
    omega

theorem componentMapOf_keys_length (cs : List Component) :
    (componentMapOf cs).keys.length ≤ cs.length := by
  have := foldl_insert_keys_length cs ∅
  simpa [componentMapOf] using this

theorem deps_length_le_sum {cs : List Component} {c : Component} (h : c ∈ cs) :
    c.Dependencies.length ≤ (cs.map (fun c => c.Dependencies.length)).sum := by
  induction cs with
  | nil => cases h
  | cons x xs ih =>
    simp only [List.map_cons, List.sum_cons]
    rcases List.mem_cons.mp h with h | h
    · subst h; omega
    · have := ih h; omega

theorem pushDependencies_eq (resolved : GoMap Bool) (toResolve deps : List String) :
    pushDependencies resolved toResolve deps
      = toResolve ++ deps.filter (fun d => !resolved.get d) := by
  unfold pushDependencies
  induction deps generalizing toResolve with
  | nil => simp
  | cons d ds ih =>
    simp only [List.foldl_cons, List.filter_cons]
    by_cases h : resolved.get d = true
    · rw [if_neg (by simp [h]), ih]
      simp [h]
    · rw [if_pos (by simpa using h), ih]
      simp [h]

theorem foldl_insert_lookup_of_not_mem (cs : List Component) (n : String)
    (hn : n ∉ componentNames cs) :
    ∀ m : GoMap Component,
      (cs.foldl (fun m comp => m.insert comp.Name comp) m).lookup n = m.lookup n := by
  induction cs with
  | nil => intro m; rfl
  | cons x xs ih =>
    intro m
    simp only [componentNames, List.map_cons, List.mem_cons, not_or] at hn
    rw [List.foldl_cons, ih hn.2, AList.lookup_insert_ne hn.1]

/-- In a catalog whose names are pairwise distinct, the catalog map sends the name
of every entry to that entry. -/
theorem lookup_componentMapOf_of_mem {cs : List Component} (hnd : (componentNames cs).Nodup)
    {c : Component} (hc : c ∈ cs) : (componentMapOf cs).lookup c.Name = some c := by
  unfold componentMapOf
  generalize (∅ : GoMap Component) = m
  induction cs generalizing m with
  | nil => cases hc
  | cons x xs ih =>
    simp only [componentNames, List.map_cons, List.nodup_cons] at hnd
    rw [List.foldl_cons]
    rcases List.mem_cons.mp hc with h | h
    · subst h
      rw [foldl_insert_lookup_of_not_mem xs c.Name hnd.1, AList.lookup_insert]
    · exact ih hnd.2 h (m.insert x.Name x)

/-! ## The loop invariant of the resolver -/

theorem ResolveInv.init (cm : GoMap Component) (selected : List String) :
    ResolveInv cm selected ∅ selected where
  allTrue := fun n h => absurd h (AList.not_mem_empty n)
  reachable := fun n h => absurd h (AList.not_mem_empty n)
  known := fun n h => absurd h (AList.not_mem_empty n)
  queued := fun _ h => Reachable.selected h
  seeded := fun _ h => Or.inr h
  closed := fun n _ h => absurd h (AList.not_mem_empty n)

theorem ResolveInv.skip {cm : GoMap Component} {selected : List String}
    {resolved : GoMap Bool} {x : String} {queue : List String}
    (inv : ResolveInv cm selected resolved (x :: queue)) (hx : resolved.get x = true) :
    ResolveInv cm selected resolved queue where
  allTrue := inv.allTrue
  reachable := inv.reachable
  known := inv.known
  queued := fun n h => inv.queued n (List.mem_cons_of_mem _ h)
  seeded := by
    intro n hn
    rcases inv.seeded n hn with h | h
    · exact Or.inl h
    · rcases List.mem_cons.mp h with h | h
      · subst h
        exact Or.inl (GoMap.mem_of_get_true _ _ hx)
      · exact Or.inr h
  closed := by
    intro n comp hn hc d hd
    rcases inv.closed n comp hn hc d hd with h | h
    · exact Or.inl h
    · rcases List.mem_cons.mp h with h | h
      · subst h
        exact Or.inl (GoMap.mem_of_get_true _ _ hx)
      · exact Or.inr h

theorem ResolveInv.resolve {cm : GoMap Component} {selected : List String}
    {resolved : GoMap Bool} {x : String} {queue : List String} {comp : Component}
    (inv : ResolveInv cm selected resolved (x :: queue))
    (hc : cm.lookup x = some comp) :
    ResolveInv cm selected (resolved.insert x true)
      (pushDependencies (resolved.insert x true) queue comp.Dependencies) := by
  have hxr : Reachable cm selected x := inv.queued x (List.mem_cons_self _ _)
  have key : ∀ d, d ∉ resolved.insert x true →
      GoMap.get (resolved.insert x true) d = false := by
    intro d hd
    have : (resolved.insert x true).lookup d = none := AList.lookup_eq_none.mpr hd
    simp [GoMap.get, this]
  refine ⟨?_, ?_, ?_, ?_, ?_, ?_⟩
  · intro n hn
    rw [GoMap.get_insert]
    by_cases h : n = x
    · simp [h]
    · rw [if_neg h]
      rcases (AList.mem_insert resolved).mp hn with h' | h'
      · exact absurd h' h
      · exact inv.allTrue n h'
  · intro n hn
    rcases (AList.mem_insert resolved).mp hn with h | h
    · subst h; exact hxr
    · exact inv.reachable n h
  · intro n hn
    rcases (AList.mem_insert resolved).mp hn with h | h
    · subst h
      exact AList.lookup_isSome.mp (by simp [hc])
    · exact inv.known n h
  · intro n hn
    rw [pushDependencies_eq, List.mem_append] at hn
    rcases hn with h | h
    · exact inv.queued n (List.mem_cons_of_mem _ h)
    · exact Reachable.dependency hxr hc (List.mem_filter.mp h).1
  · intro n hn
    rcases inv.seeded n hn with h | h
    · exact Or.inl ((AList.mem_insert resolved).mpr (Or.inr h))
    · rcases List.mem_cons.mp h with h | h
      · exact Or.inl ((AList.mem_insert resolved).mpr (Or.inl h))
      · right
        rw [pushDependencies_eq]
        exact List.mem_append_left _ h
  · intro n c hn hcn d hd
    by_cases hdr : d ∈ resolved.insert x true
    · exact Or.inl hdr
    · right
      rw [pushDependencies_eq, List.mem_append]
      rcases (AList.mem_insert resolved).mp hn with h | h
      · subst h
        rw [hc] at hcn
        cases hcn
        right
        exact List.mem_filter.mpr ⟨hd, by simp [key d hdr]⟩
      · rcases inv.closed n c h hcn d hd with h' | h'
        · exact absurd ((AList.mem_insert resolved).mpr (Or.inr h')) hdr
        · rcases List.mem_cons.mp h' with h'' | h''
          · exact absurd ((AList.mem_insert resolved).mpr (Or.inl h'')) hdr
          · exact Or.inl h''

theorem resolveLoop_finished {cm : GoMap Component} {selected : List String} :
    ∀ (fuel : Nat) (resolved : GoMap Bool) (queue : List String) (r : GoMap Bool),
      ResolveInv cm selected resolved queue →
      resolveLoop cm fuel resolved queue = some (LoopExit.finished r) →
      ResolveInv cm selected r [] := by
  intro fuel
  induction fuel with
  | zero => intro resolved queue r _ h; simp [resolveLoop] at h
  | succ fuel ih =>
    intro resolved queue r inv h
    cases queue with
    | nil =>
      simp only [resolveLoop, Option.some.injEq, LoopExit.finished.injEq] at h
      subst h
      exact inv
    | cons x queue =>
      simp only [resolveLoop] at h
      by_cases hx : resolved.get x = true
      · rw [if_pos hx] at h
        exact ih _ _ _ (inv.skip hx) h
      · rw [if_neg hx] at h
        cases hc : cm.lookup x with
        | none => simp [hc] at h
        | some comp =>
          simp only [hc] at h
          exact ih _ _ _ (inv.resolve hc) h

theorem resolveLoop_unknown {cm : GoMap Component} {selected : List String} :
    ∀ (fuel : Nat) (resolved : GoMap Bool) (queue : List String) (msg : String),
      ResolveInv cm selected resolved queue →
      resolveLoop cm fuel resolved queue = some (LoopExit.unknownComponent msg) →
      ∃ n, Reachable cm selected n ∧ cm.lookup n = none ∧ msg = "未知的组件: " ++ n := by
  intro fuel
  induction fuel with
  | zero => intro resolved queue msg _ h; simp [resolveLoop] at h
  | succ fuel ih =>
    intro resolved queue msg inv h
    cases queue with
    | nil => simp [resolveLoop] at h
    | cons x queue =>
      simp only [resolveLoop] at h
      by_cases hx : resolved.get x = true
      · rw [if_pos hx] at h
        exact ih _ _ _ (inv.skip hx) h
      · rw [if_neg hx] at h
        cases hc : cm.lookup x with
        | none =>
          simp only [hc, Option.some.injEq, LoopExit.unknownComponent.injEq] at h
          exact ⟨x, inv.queued x (List.mem_cons_self _ _), hc, h.symm⟩
        | some comp =>
          simp only [hc] at h
          exact ih _ _ _ (inv.resolve hc) h

/-- At the end of the loop the resolved names are exactly the reachable ones. -/
theorem ResolveInv.mem_iff_reachable {cm : GoMap Component} {selected : List String}
    {r : GoMap Bool} (inv : ResolveInv cm selected r []) (n : String) :
    n ∈ r ↔ Reachable cm selected n := by
  constructor
  · exact inv.reachable n
  · intro h
    induction h with
    | selected hs =>
      rcases inv.seeded _ hs with h | h
      · exact h
      · cases h
    | dependency _ hc hd ih =>
      rcases inv.closed _ _ ih hc _ hd with h | h
      · exact h
      · cases h

/-! ## Termination of the work-queue loop -/

theorem keys_length_le_of_subset (cm : GoMap Component) (r : GoMap Bool)
    (h : ∀ n, n ∈ r → n ∈ cm) : r.keys.length ≤ cm.keys.length := by
  apply List.Subperm.length_le
  apply List.subperm_of_subset r.keys_nodup
  intro n hn
  exact AList.mem_keys.mp (h n (AList.mem_keys.mpr hn))

theorem resolveLoop_fuel_mono {cm : GoMap Component} :
    ∀ (fuel : Nat) (resolved : GoMap Bool) (queue : List String) (e : LoopExit),
      resolveLoop cm fuel resolved queue = some e →
      ∀ fuel', fuel ≤ fuel' → resolveLoop cm fuel' resolved queue = some e := by
  intro fuel
  induction fuel with
  | zero => intro resolved queue e h; simp [resolveLoop] at h
  | succ fuel ih =>
    intro resolved queue e h fuel' hle
    obtain ⟨k, rfl⟩ : ∃ k, fuel' = k + 1 := ⟨fuel' - 1, by omega⟩
    have hk : fuel ≤ k := by omega
    cases queue with
    | nil => simpa [resolveLoop] using h
    | cons x queue =>
      simp only [resolveLoop] at h ⊢
      by_cases hx : resolved.get x = true
      · rw [if_pos hx] at h ⊢
        exact ih _ _ _ h k hk
      · rw [if_neg hx] at h ⊢
        cases hc : cm.lookup x with
        | none => simpa [hc] using h
        | some comp =>
          simp only [hc] at h ⊢
          exact ih _ _ _ h k hk

theorem resolveLoop_terminates {cm : GoMap Component} (D : Nat)
    (hD : ∀ n comp, cm.lookup n = some comp → comp.Dependencies.length ≤ D) :
    ∀ (fuel : Nat) (resolved : GoMap Bool) (queue : List String),
      (∀ n, n ∈ resolved → n ∈ cm) →
      (∀ n, n ∈ resolved → resolved.get n = true) →
      queue.length + (D + 1) * (cm.keys.length - resolved.keys.length) < fuel →
      ∃ e, resolveLoop cm fuel resolved queue = some e := by
  intro fuel
  induction fuel with
  | zero => intro resolved queue _ _ h; omega
  | succ fuel ih =>
    intro resolved queue hsub hall hlt
    cases queue with
    | nil => exact ⟨_, rfl⟩
    | cons x queue =>
      simp only [resolveLoop]
      by_cases hx : resolved.get x = true
      · rw [if_pos hx]
        apply ih _ _ hsub hall
        simp only [List.length_cons] at hlt
        omega
      · rw [if_neg hx]
        cases hc : cm.lookup x with
        | none => exact ⟨_, rfl⟩
        | some comp =>
          simp only
          have hxcm : x ∈ cm := AList.lookup_isSome.mp (by simp [hc])
          have hxr : x ∉ resolved := fun hmem => hx (hall x hmem)
          have hsub' : ∀ n, n ∈ resolved.insert x true → n ∈ cm := by
            intro n hn
            rcases (AList.mem_insert resolved).mp hn with h | h
            · subst h; exact hxcm
            · exact hsub n h
          have hall' : ∀ n, n ∈ resolved.insert x true →
              GoMap.get (resolved.insert x true) n = true := by
            intro n hn
            rw [GoMap.get_insert]
            by_cases h : n = x
            · simp [h]
            · rw [if_neg h]
              rcases (AList.mem_insert resolved).mp hn with h' | h'
              · exact absurd h' h
              · exact hall n h'
          apply ih _ _ hsub' hall'
          have hlen : (resolved.insert x true).keys.length = resolved.keys.length + 1 := by
            rw [AList.keys_insert, List.length_cons,
              List.erase_of_not_mem (fun h => hxr (AList.mem_keys.mpr h))]
          have hle := keys_length_le_of_subset cm _ hsub'
          have hq : (pushDependencies (resolved.insert x true) queue comp.Dependencies).length
              ≤ queue.length + D := by
            rw [pushDependencies_eq, List.length_append]
            have h1 := List.length_filter_le
              (fun d => !GoMap.get (resolved.insert x true) d) comp.Dependencies
            have h2 := hD x comp hc
            omega
          obtain ⟨m, hm⟩ : ∃ m, cm.keys.length - resolved.keys.length = m + 1 :=
            ⟨cm.keys.length - resolved.keys.length - 1, by omega⟩
          have hm' : cm.keys.length - (resolved.insert x true).keys.length = m := by omega
          rw [hm'] 
          rw [hm, Nat.mul_succ] at hlt
          simp only [List.length_cons] at hlt
          omega

/-- The budget `resolveFuel` is enough: the loop of `resolveDependencies` is left
within it, for every catalog and every selection. -/
theorem resolveLoop_fuel_enough (allComponents : List Component) (selected : List String) :
    ∃ e, resolveLoop (componentMapOf allComponents) (resolveFuel allComponents selected)
      ∅ selected = some e := by
  apply resolveLoop_terminates ((allComponents.map (fun c => c.Dependencies.length)).sum)
  · intro n comp h
    exact deps_length_le_sum (lookup_componentMapOf h).2
  · intro n h
    exact absurd h (AList.not_mem_empty n)
  · intro n h
    exact absurd h (AList.not_mem_empty n)
  · have h1 := componentMapOf_keys_length allComponents
    have h2 : ((allComponents.map (fun c => c.Dependencies.length)).sum + 1)
          * ((componentMapOf allComponents).keys.length - (∅ : GoMap Bool).keys.length)
        ≤ ((allComponents.map (fun c => c.Dependencies.length)).sum + 1)
          * allComponents.length := by
      apply Nat.mul_le_mul_left
      omega
    unfold resolveFuel
    omega
/-! ## The two ways `resolveDependencies` returns -/

theorem componentNames_result {allComponents : List Component} {r : GoMap Bool}
    (h : ∀ n, n ∈ r → n ∈ componentMapOf allComponents) :
    componentNames (r.keys.map (fun name => (componentMapOf allComponents).get name))
      = r.keys := by
  unfold componentNames
  rw [List.map_map]
  conv_rhs => rw [← List.map_id r.keys]
  apply List.map_congr_left
  intro n hn
  have hmem : n ∈ componentMapOf allComponents := h n (AList.mem_keys.mpr hn)
  obtain ⟨c, hc⟩ := Option.isSome_iff_exists.mp (AList.lookup_isSome.mpr hmem)
  simp only [Function.comp_apply, id_eq, GoMap.get_of_lookup _ _ _ hc]
  exact (lookup_componentMapOf hc).1

/-- Either the loop ends with the invariant established and the entries of the
resolved names are returned, or a reachable name without catalog entry is
reported and nothing else is returned. -/
theorem resolveDependencies_cases (allComponents : List Component) (selected : List String) :
    (∃ r : GoMap Bool, ResolveInv (componentMapOf allComponents) selected r [] ∧
        resolveDependencies allComponents selected
          = some (some (r.keys.map (fun name => (componentMapOf allComponents).get name)),
              none)) ∨
    (∃ n, Reachable (componentMapOf allComponents) selected n ∧
        (componentMapOf allComponents).lookup n = none ∧
        resolveDependencies allComponents selected
          = some (none, some ("未知的组件: " ++ n))) := by
  obtain ⟨e, he⟩ := resolveLoop_fuel_enough allComponents selected
  cases e with
  | unknownComponent msg =>
    right
    obtain ⟨n, hr, hl, hm⟩ := resolveLoop_unknown _ _ _ _ (ResolveInv.init _ _) he
    refine ⟨n, hr, hl, ?_⟩
    simp only [resolveDependencies, he, hm]
  | finished r =>
    left
    refine ⟨r, resolveLoop_finished _ _ _ _ (ResolveInv.init _ _) he, ?_⟩
    simp only [resolveDependencies, he]

/-- What a successful call returns. -/
theorem resolveDependencies_ok {allComponents : List Component} {selected : List String}
    {result : List Component}
    (h : resolveDependencies allComponents selected = some (some result, none)) :
    ∃ r : GoMap Bool, ResolveInv (componentMapOf allComponents) selected r [] ∧
      result = r.keys.map (fun name => (componentMapOf allComponents).get name) ∧
      componentNames result = r.keys := by
  rcases resolveDependencies_cases allComponents selected with ⟨r, inv, hr⟩ | ⟨n, _, _, hr⟩
  · rw [hr] at h
    simp only [Option.some.injEq, Prod.mk.injEq, and_true] at h
    subst h
    exact ⟨r, inv, rfl, componentNames_result inv.known⟩
  · rw [hr] at h
    simp at h

/-- Success is exactly the absence of a reachable name without catalog entry. -/
theorem resolveDependencies_ok_iff (allComponents : List Component) (selected : List String) :
    (∃ result, resolveDependencies allComponents selected = some (some result, none)) ↔
      ∀ n, Reachable (componentMapOf allComponents) selected n →
        n ∈ componentMapOf allComponents := by
  constructor
  · rintro ⟨result, h⟩ n hn
    obtain ⟨r, inv, _, _⟩ := resolveDependencies_ok h
    exact inv.known n ((inv.mem_iff_reachable n).mpr hn)
  · intro hall
    rcases resolveDependencies_cases allComponents selected with ⟨r, _, hr⟩ | ⟨n, hn, hl, _⟩
    · exact ⟨_, hr⟩
    · exact absurd (hall n hn) (AList.lookup_eq_none.mp hl)

theorem mem_result_names {allComponents : List Component} {selected : List String}
    {result : List Component}
    (h : resolveDependencies allComponents selected = some (some result, none)) (n : String) :
    n ∈ componentNames result ↔ Reachable (componentMapOf allComponents) selected n := by
  obtain ⟨r, inv, _, hnames⟩ := resolveDependencies_ok h
  rw [hnames, ← AList.mem_keys]
  exact inv.mem_iff_reachable n

theorem Reachable.congr_selected {cm : GoMap Component} {s₁ s₂ : List String}
    (hs : ∀ n, n ∈ s₁ → n ∈ s₂) {n : String} (h : Reachable cm s₁ n) : Reachable cm s₂ n := by
  induction h with
  | selected hsel => exact Reachable.selected (hs _ hsel)
  | dependency _ hc hd ih => exact Reachable.dependency ih hc hd

/-! ## Dependency cycles -/

theorem Reachable.of_depEdge {cm : GoMap Component} {selected : List String} {a b : String}
    (ha : Reachable cm selected a) (h : depEdge cm a b = true) : Reachable cm selected b := by
  unfold depEdge at h
  cases hc : cm.lookup a with
  | none => simp [hc] at h
  | some comp =>
    simp only [hc, decide_eq_true_eq] at h
    exact Reachable.dependency ha hc h

theorem Reachable.of_path {cm : GoMap Component} {selected : List String} :
    ∀ (l : List String) (a : String), Reachable cm selected a →
      isDependencyPath cm a l = true → ∀ y ∈ l, Reachable cm selected y := by
  intro l
  induction l with
  | nil => intro a _ _ y hy; cases hy
  | cons b l ih =>
    intro a ha hch y hy
    simp only [isDependencyPath, Bool.and_eq_true] at hch
    have hb := ha.of_depEdge hch.1
    rcases List.mem_cons.mp hy with h | h
    · subst h; exact hb
    · exact ih b hb hch.2 y h

/-- From any member of a path that ends in `z`, the end `z` is reached. -/
theorem Reachable.path_end {cm : GoMap Component} {selected : List String} (z : String) :
    ∀ (l : List String) (a : String), isDependencyPath cm a (l ++ [z]) = true →
      ∀ m ∈ a :: l, Reachable cm selected m → Reachable cm selected z := by
  intro l
  induction l with
  | nil =>
    intro a hch m hm hr
    simp only [List.mem_singleton] at hm
    subst hm
    simp only [List.nil_append, isDependencyPath, Bool.and_eq_true] at hch
    exact hr.of_depEdge hch.1
  | cons b l ih =>
    intro a hch m hm hr
    simp only [List.cons_append, isDependencyPath, Bool.and_eq_true] at hch
    rcases List.mem_cons.mp hm with h | h
    · subst h
      exact ih b hch.2 b (List.mem_cons_self _ _) (hr.of_depEdge hch.1)
    · exact ih b hch.2 m h hr

theorem Reachable.of_cycle {cm : GoMap Component} {selected : List String}
    {cycle : List String} (hcyc : isDependencyCycle cm cycle = true) {m : String}
    (hm : m ∈ cycle) (hr : Reachable cm selected m) :
    ∀ y ∈ cycle, Reachable cm selected y := by
  cases cycle with
  | nil => cases hm
  | cons x xs =>
    have hx : Reachable cm selected x := Reachable.path_end x xs x hcyc m hm hr
    intro y hy
    rcases List.mem_cons.mp hy with h | h
    · subst h; exact hx
    · exact Reachable.of_path _ x hx hcyc y (List.mem_append_left _ h)

/-! ## Claims about `resolveDependencies` -/

/-- C1 (closure): if `resolveDependencies` succeeds, then for every component `C`
of the returned list and every name `D` in `C.Dependencies`, a component named
`D` is in the returned list as well. -/
theorem resolveDependencies_closure (allComponents : List Component)
    (selected : List String) (result : List Component)
    (h : resolveDependencies allComponents selected = some (some result, none)) :
    ∀ C ∈ result, ∀ D ∈ C.Dependencies, ∃ C' ∈ result, C'.Name = D := by
  obtain ⟨r, inv, hres, hnames⟩ := resolveDependencies_ok h
  intro C hC D hD
  rw [hres, List.mem_map] at hC
  obtain ⟨n, hn, hCn⟩ := hC
  have hnr : n ∈ r := AList.mem_keys.mpr hn
  obtain ⟨c, hc⟩ := Option.isSome_iff_exists.mp (AList.lookup_isSome.mpr (inv.known n hnr))
  rw [GoMap.get_of_lookup _ _ _ hc] at hCn
  subst hCn
  have hDr : D ∈ r := by
    rcases inv.closed n c hnr hc D hD with h' | h'
    · exact h'
    · cases h'
  have : D ∈ componentNames result := by
    rw [hnames]; exact AList.mem_keys.mp hDr
  obtain ⟨C', hC', hname⟩ := List.mem_map.mp this
  exact ⟨C', hC', hname⟩

/-- Witness of C1: selecting `mqtt` in the test catalog returns `wifi` and
`mqtt`, and the dependency `wifi` of `mqtt` is among them. -/
theorem resolveDependencies_closure_witness :
    resolveDependencies testCatalog ["mqtt"]
        = some (some [ { Name := "wifi", Description := "WiFi component" },
            { Name := "mqtt", Description := "MQTT component", Dependencies := ["wifi"] } ],
          none) ∧
      ∀ C ∈ ([ { Name := "wifi", Description := "WiFi component" },
            { Name := "mqtt", Description := "MQTT component", Dependencies := ["wifi"] } ]
              : List Component),
        ∀ D ∈ C.Dependencies,
          ∃ C' ∈ ([ { Name := "wifi", Description := "WiFi component" },
            { Name := "mqtt", Description := "MQTT component", Dependencies := ["wifi"] } ]
              : List Component), C'.Name = D :=
  ⟨rfl, resolveDependencies_closure testCatalog ["mqtt"] _ rfl⟩

/-- C2 (exact transitive closure): if `resolveDependencies` succeeds, the names of
the returned components are pairwise distinct, a name occurs among them exactly
when it is reachable from the selection through dependency edges of the catalog,
every returned component is the catalog entry of its name, and the length of the
list is the number of reachable names. -/
theorem resolveDependencies_exact_closure (allComponents : List Component)
    (selected : List String) (result : List Component)
    (h : resolveDependencies allComponents selected = some (some result, none)) :
    (componentNames result).Nodup ∧
      (∀ n, n ∈ componentNames result ↔
        Reachable (componentMapOf allComponents) selected n) ∧
      (∀ c ∈ result, (componentMapOf allComponents).lookup c.Name = some c) ∧
      result.length
        = Set.ncard {n | Reachable (componentMapOf allComponents) selected n} := by
  obtain ⟨r, inv, hres, hnames⟩ := resolveDependencies_ok h
  have hnodup : (componentNames result).Nodup := by
    rw [hnames]; exact r.keys_nodup
  refine ⟨hnodup, mem_result_names h, ?_, ?_⟩
  · intro c hc
    rw [hres, List.mem_map] at hc
    obtain ⟨n, hn, hcn⟩ := hc
    obtain ⟨c', hc'⟩ := Option.isSome_iff_exists.mp
      (AList.lookup_isSome.mpr (inv.known n (AList.mem_keys.mpr hn)))
    rw [GoMap.get_of_lookup _ _ _ hc'] at hcn
    subst hcn
    rw [(lookup_componentMapOf hc').1]
    exact hc'
  · have hset : {n | Reachable (componentMapOf allComponents) selected n}
        = ↑(componentNames result).toFinset := by
      ext n
      simp only [Set.mem_setOf_eq, List.coe_toFinset]
      exact (mem_result_names h n).symm
    rw [hset, Set.ncard_coe_Finset, List.toFinset_card_of_nodup hnodup]
    simp [componentNames]

/-- Witness of C2: in the catalog of `TestResolveDependencies`, the selection
`[mqtt, ble]` resolves to the three components `wifi`, `mqtt` and `ble`. -/
theorem resolveDependencies_exact_closure_witness :
    resolveDependencies testCatalog ["mqtt", "ble"]
        = some (some [ { Name := "wifi", Description := "WiFi component" },
            { Name := "ble", Description := "BLE component" },
            { Name := "mqtt", Description := "MQTT component", Dependencies := ["wifi"] } ],
          none) ∧
      (∀ n, n ∈ ["wifi", "ble", "mqtt"] ↔
        Reachable (componentMapOf testCatalog) ["mqtt", "ble"] n) ∧
      3 = Set.ncard {n | Reachable (componentMapOf testCatalog) ["mqtt", "ble"] n} :=
  ⟨rfl,
    (resolveDependencies_exact_closure testCatalog ["mqtt", "ble"] _ rfl).2.1,
    (resolveDependencies_exact_closure testCatalog ["mqtt", "ble"] _ rfl).2.2.2⟩

/-- C3 (unknown component): `resolveDependencies` returns an error exactly when a
name reachable from the selection has no catalog entry; the error message then
names such a reachable, missing component, and the returned list is `nil`. -/
theorem resolveDependencies_error_iff (allComponents : List Component)
    (selected : List String) :
    ((∃ res msg, resolveDependencies allComponents selected = some (res, some msg)) ↔
        ∃ n, Reachable (componentMapOf allComponents) selected n ∧
          (componentMapOf allComponents).lookup n = none) ∧
      ∀ res msg, resolveDependencies allComponents selected = some (res, some msg) →
        res = none ∧
        ∃ n, Reachable (componentMapOf allComponents) selected n ∧
          (componentMapOf allComponents).lookup n = none ∧
          msg = "未知的组件: " ++ n := by
  have key : ∀ res msg, resolveDependencies allComponents selected = some (res, some msg) →
      res = none ∧
      ∃ n, Reachable (componentMapOf allComponents) selected n ∧
        (componentMapOf allComponents).lookup n = none ∧
        msg = "未知的组件: " ++ n := by
    intro res msg h
    rcases resolveDependencies_cases allComponents selected with ⟨r, _, hr⟩ | ⟨n, hn, hl, hr⟩
    · rw [hr] at h
      simp at h
    · rw [hr] at h
      simp only [Option.some.injEq, Prod.mk.injEq] at h
      exact ⟨h.1.symm, n, hn, hl, h.2.symm⟩
  refine ⟨⟨?_, ?_⟩, key⟩
  · rintro ⟨res, msg, h⟩
    obtain ⟨_, n, hn, hl, _⟩ := key res msg h
    exact ⟨n, hn, hl⟩
  · rintro ⟨n, hn, hl⟩
    rcases resolveDependencies_cases allComponents selected with ⟨r, inv, _⟩ | ⟨m, _, _, hr⟩
    · exact absurd (inv.known n ((inv.mem_iff_reachable n).mpr hn))
        (AList.lookup_eq_none.mp hl)
    · exact ⟨_, _, hr⟩

/-- Witness of C3: with the catalog `[wifi]` of `TestResolveDependenciesNonExistent`,
the selection `[nonexistent]` returns `nil` and an error naming `nonexistent`. -/
theorem resolveDependencies_error_witness :
    resolveDependencies [{ Name := "wifi", Description := "WiFi component" }] ["nonexistent"]
        = some (none, some "未知的组件: nonexistent") ∧
      ∃ n, Reachable (componentMapOf [{ Name := "wifi", Description := "WiFi component" }])
          ["nonexistent"] n ∧
        (componentMapOf [{ Name := "wifi", Description := "WiFi component" }]).lookup n = none ∧
        "未知的组件: nonexistent" = "未知的组件: " ++ n :=
  ⟨rfl,
    ((resolveDependencies_error_iff [{ Name := "wifi", Description := "WiFi component" }]
      ["nonexistent"]).2 none "未知的组件: nonexistent" rfl).2⟩

/-- C4 (order and duplicate independence): two selections with the same set of
names either both fail or both succeed, and then with the same set of component
names. -/
theorem resolveDependencies_selection_set (allComponents : List Component)
    (s₁ s₂ : List String) (hs : ∀ n, n ∈ s₁ ↔ n ∈ s₂) :
    (∃ msg₁ msg₂, resolveDependencies allComponents s₁ = some (none, some msg₁) ∧
        resolveDependencies allComponents s₂ = some (none, some msg₂)) ∨
    (∃ r₁ r₂, resolveDependencies allComponents s₁ = some (some r₁, none) ∧
        resolveDependencies allComponents s₂ = some (some r₂, none) ∧
        ∀ n, n ∈ componentNames r₁ ↔ n ∈ componentNames r₂) := by
  have hreach : ∀ n, Reachable (componentMapOf allComponents) s₁ n ↔
      Reachable (componentMapOf allComponents) s₂ n := fun n =>
    ⟨Reachable.congr_selected (fun m hm => (hs m).mp hm),
      Reachable.congr_selected (fun m hm => (hs m).mpr hm)⟩
  rcases resolveDependencies_cases allComponents s₁ with ⟨r, inv, hr⟩ | ⟨n, hn, hl, hr⟩
  · right
    have hok : ∃ result, resolveDependencies allComponents s₂ = some (some result, none) := by
      rw [resolveDependencies_ok_iff]
      intro n hn
      exact inv.known n ((inv.mem_iff_reachable n).mpr ((hreach n).mpr hn))
    obtain ⟨r₂, hr₂⟩ := hok
    refine ⟨_, r₂, hr, hr₂, ?_⟩
    intro n
    rw [mem_result_names hr, mem_result_names hr₂]
    exact hreach n
  · left
    rcases resolveDependencies_cases allComponents s₂ with ⟨r, inv, _⟩ | ⟨m, _, _, hr₂⟩
    · exact absurd (inv.known n ((inv.mem_iff_reachable n).mpr ((hreach n).mp hn)))
        (AList.lookup_eq_none.mp hl)
    · exact ⟨_, _, hr, hr₂⟩

/-- Witness of C4: the selections `[mqtt, ble]` and `[ble, mqtt, ble, mqtt]` of
the test catalog. -/
theorem resolveDependencies_selection_set_witness :
    (∀ n, n ∈ ["mqtt", "ble"] ↔ n ∈ ["ble", "mqtt", "ble", "mqtt"]) ∧
    ((∃ msg₁ msg₂, resolveDependencies testCatalog ["mqtt", "ble"] = some (none, some msg₁) ∧
        resolveDependencies testCatalog ["ble", "mqtt", "ble", "mqtt"]
          = some (none, some msg₂)) ∨
    (∃ r₁ r₂, resolveDependencies testCatalog ["mqtt", "ble"] = some (some r₁, none) ∧
        resolveDependencies testCatalog ["ble", "mqtt", "ble", "mqtt"] = some (some r₂, none) ∧
        ∀ n, n ∈ componentNames r₁ ↔ n ∈ componentNames r₂)) :=
  ⟨by simp; tauto,
    resolveDependencies_selection_set testCatalog ["mqtt", "ble"] ["ble", "mqtt", "ble", "mqtt"]
      (by simp; tauto)⟩

/-- C5 (cycle safety): for every catalog and selection the work-queue loop is left
within the budget `resolveFuel` (so `resolveDependencies` returns), a larger
budget does not change its outcome, and when a selected name lies on a
dependency cycle, a successful resolution contains every member of the cycle. -/
theorem resolveDependencies_cycle_safe (allComponents : List Component)
    (selected : List String) :
    (∃ out, resolveDependencies allComponents selected = some out) ∧
      (∀ fuel, resolveFuel allComponents selected ≤ fuel →
        resolveLoop (componentMapOf allComponents) fuel ∅ selected
          = resolveLoop (componentMapOf allComponents)
              (resolveFuel allComponents selected) ∅ selected) ∧
      ∀ (cycle : List String) (m : String) (result : List Component),
        isDependencyCycle (componentMapOf allComponents) cycle = true →
        m ∈ cycle → m ∈ selected →
        resolveDependencies allComponents selected = some (some result, none) →
        ∀ y ∈ cycle, y ∈ componentNames result := by
  refine ⟨?_, ?_, ?_⟩
  · rcases resolveDependencies_cases allComponents selected with ⟨r, _, hr⟩ | ⟨n, _, _, hr⟩
    · exact ⟨_, hr⟩
    · exact ⟨_, hr⟩
  · intro fuel hle
    obtain ⟨e, he⟩ := resolveLoop_fuel_enough allComponents selected
    rw [he]
    exact resolveLoop_fuel_mono _ _ _ _ he fuel hle
  · intro cycle m result hcyc hm hsel h y hy
    rw [mem_result_names h]
    exact Reachable.of_cycle hcyc hm (Reachable.selected hsel) y hy

/-- Witness of C5: `a` and `b` depend on each other; selecting `a` returns both. -/
theorem resolveDependencies_cycle_safe_witness :
    isDependencyCycle (componentMapOf cyclicCatalog) ["a", "b"] = true ∧
      "a" ∈ ["a", "b"] ∧ "a" ∈ ["a"] ∧
      resolveDependencies cyclicCatalog ["a"]
        = some (some [ { Name := "b", Dependencies := ["a"] },
            { Name := "a", Dependencies := ["b"] } ], none) ∧
      ∀ y ∈ ["a", "b"], y ∈ componentNames
        [ { Name := "b", Dependencies := ["a"] }, { Name := "a", Dependencies := ["b"] } ] :=
  ⟨by decide, by decide, by decide, rfl,
    (resolveDependencies_cycle_safe cyclicCatalog ["a"]).2.2 ["a", "b"] "a" _
      (by decide) (by decide) (by decide) rfl⟩

/-- C6 (re-resolution is idempotent): if `resolveDependencies` succeeds with result
`R`, then resolving the names of `R` succeeds as well and returns the same set of
component names. -/
theorem resolveDependencies_idempotent (allComponents : List Component)
    (selected : List String) (result : List Component)
    (h : resolveDependencies allComponents selected = some (some result, none)) :
    ∃ result', resolveDependencies allComponents (componentNames result)
        = some (some result', none) ∧
      ∀ n, n ∈ componentNames result' ↔ n ∈ componentNames result := by
  obtain ⟨r, inv, _, hnames⟩ := resolveDependencies_ok h
  have hreach : ∀ n, Reachable (componentMapOf allComponents) (componentNames result) n →
      n ∈ r := by
    intro n hn
    induction hn with
    | selected hs =>
      rw [hnames] at hs
      exact AList.mem_keys.mpr hs
    | dependency _ hc hd ih =>
      rcases inv.closed _ _ ih hc _ hd with h' | h'
      · exact h'
      · cases h'
  have hok : ∃ result', resolveDependencies allComponents (componentNames result)
      = some (some result', none) := by
    rw [resolveDependencies_ok_iff]
    intro n hn
    exact inv.known n (hreach n hn)
  obtain ⟨result', hr'⟩ := hok
  refine ⟨result', hr', ?_⟩
  intro n
  rw [mem_result_names hr']
  constructor
  · intro hn
    rw [hnames]
    exact AList.mem_keys.mp (hreach n hn)
  · exact Reachable.selected

/-- Witness of C6: the result of selecting `http` in the test catalog, resolved
again. -/
theorem resolveDependencies_idempotent_witness :
    resolveDependencies testCatalog ["http"]
        = some (some [ { Name := "wifi", Description := "WiFi component" },
            { Name := "http", Description := "HTTP component", Dependencies := ["wifi"] } ],
          none) ∧
      ∃ result', resolveDependencies testCatalog ["wifi", "http"] = some (some result', none) ∧
        ∀ n, n ∈ componentNames result' ↔ n ∈ ["wifi", "http"] :=
  ⟨rfl, resolveDependencies_idempotent testCatalog ["http"] _ rfl⟩

/-! ## `uniqueStrings` -/

/-- The state of the loop of `uniqueStrings` after the tokens of `strs`. -/
theorem uniqueStrings_loop_seen (strs : List String) :
    ∀ a, a ∈ (strs.foldl
        (fun (st : List String × List String) s =>
          if s ≠ "" ∧ s ∉ st.1 then (s :: st.1, st.2 ++ [s]) else st)
        ([], [])).1 ↔
      a ∈ (strs.foldl
        (fun (st : List String × List String) s =>
          if s ≠ "" ∧ s ∉ st.1 then (s :: st.1, st.2 ++ [s]) else st)
        ([], [])).2 := by
  induction strs using List.reverseRecOn with
  | nil => intro a; simp
  | append_singleton l s ih =>
    intro a
    rw [List.foldl_append, List.foldl_cons, List.foldl_nil]
    split
    · simp only [List.mem_cons, List.mem_append, List.mem_singleton, ih a]
      tauto
    · exact ih a

theorem uniqueStrings_append_singleton (l : List String) (s : String) :
    uniqueStrings (l ++ [s])
      = if s ≠ "" ∧ s ∉ uniqueStrings l then uniqueStrings l ++ [s] else uniqueStrings l := by
  unfold uniqueStrings
  rw [List.foldl_append, List.foldl_cons, List.foldl_nil]
  have hseen := uniqueStrings_loop_seen l s
  by_cases h : s ≠ "" ∧ s ∉ (l.foldl
        (fun (st : List String × List String) s =>
          if s ≠ "" ∧ s ∉ st.1 then (s :: st.1, st.2 ++ [s]) else st)
        ([], [])).1
  · rw [if_pos h, if_pos ⟨h.1, fun h' => h.2 (hseen.mpr h')⟩]
  · rw [if_neg h, if_neg (fun h' => h ⟨h'.1, fun h'' => h'.2 (hseen.mp h'')⟩)]

theorem uniqueStrings_nil : uniqueStrings [] = [] := rfl

theorem mem_uniqueStrings (l : List String) (a : String) :
    a ∈ uniqueStrings l ↔ a ∈ l ∧ a ≠ "" := by
  induction l using List.reverseRecOn with
  | nil => simp [uniqueStrings_nil]
  | append_singleton l s ih =>
    rw [uniqueStrings_append_singleton]
    by_cases h : s ≠ "" ∧ s ∉ uniqueStrings l
    · rw [if_pos h]
      simp only [List.mem_append, List.mem_singleton, ih]
      constructor
      · rintro (h' | h')
        · exact ⟨Or.inl h'.1, h'.2⟩
        · subst h'; exact ⟨Or.inr rfl, h.1⟩
      · rintro ⟨h' | h', hne⟩
        · exact Or.inl ⟨h', hne⟩
        · exact Or.inr h'
    · rw [if_neg h, ih]
      simp only [List.mem_append, List.mem_singleton]
      constructor
      · rintro ⟨h', hne⟩
        exact ⟨Or.inl h', hne⟩
      · rintro ⟨h' | h', hne⟩
        · exact ⟨h', hne⟩
        · subst h'
          by_contra hcon
          exact h ⟨hne, fun hm => hcon (ih.mp hm)⟩

theorem nodup_uniqueStrings (l : List String) : (uniqueStrings l).Nodup := by
  induction l using List.reverseRecOn with
  | nil => simp [uniqueStrings_nil]
  | append_singleton l s ih =>
    rw [uniqueStrings_append_singleton]
    split
    · rename_i h
      rw [List.nodup_append]
      refine ⟨ih, List.nodup_singleton s, ?_⟩
      intro a ha hs
      rw [List.mem_singleton] at hs
      subst hs
      exact h.2 ha
    · exact ih

theorem indexOf_uniqueStrings (l : List String) :
    ∀ a ∈ uniqueStrings l, ∀ b ∈ uniqueStrings l,
      ((uniqueStrings l).indexOf a < (uniqueStrings l).indexOf b ↔
        l.indexOf a < l.indexOf b) := by
  induction l using List.reverseRecOn with
  | nil => intro a ha; simp [uniqueStrings_nil] at ha
  | append_singleton l s ih =>
    have hin : ∀ x, x ∈ uniqueStrings l → x ∈ l := fun x hx => ((mem_uniqueStrings l x).mp hx).1
    rw [uniqueStrings_append_singleton]
    by_cases h : s ≠ "" ∧ s ∉ uniqueStrings l
    · rw [if_pos h]
      have hsl : s ∉ l := fun hs => h.2 ((mem_uniqueStrings l s).mpr ⟨hs, h.1⟩)
      have hs1 : (uniqueStrings l ++ [s]).indexOf s = (uniqueStrings l).length := by
        rw [List.indexOf_append_of_not_mem h.2]; simp
      have hs2 : (l ++ [s]).indexOf s = l.length := by
        rw [List.indexOf_append_of_not_mem hsl]; simp
      intro a ha b hb
      rw [List.mem_append, List.mem_singleton] at ha hb
      rcases ha with ha | ha <;> rcases hb with hb | hb
      · rw [List.indexOf_append_of_mem ha, List.indexOf_append_of_mem hb,
          List.indexOf_append_of_mem (hin a ha), List.indexOf_append_of_mem (hin b hb)]
        exact ih a ha b hb
      · subst hb
        rw [hs1, hs2, List.indexOf_append_of_mem ha, List.indexOf_append_of_mem (hin a ha)]
        have h1 := List.indexOf_lt_length.mpr ha
        have h2 := List.indexOf_lt_length.mpr (hin a ha)
        exact ⟨fun _ => h2, fun _ => h1⟩
      · subst ha
        rw [hs1, hs2, List.indexOf_append_of_mem hb, List.indexOf_append_of_mem (hin b hb)]
        have h1 := List.indexOf_lt_length.mpr hb
        have h2 := List.indexOf_lt_length.mpr (hin b hb)
        constructor <;> intro hlt <;> omega
      · subst ha; subst hb
        simp
    · rw [if_neg h]
      intro a ha b hb
      rw [List.indexOf_append_of_mem (hin a ha), List.indexOf_append_of_mem (hin b hb)]
      exact ih a ha b hb

theorem stableDedup_uniqueStrings (l : List String) : StableDedup (uniqueStrings l) l :=
  ⟨nodup_uniqueStrings l, mem_uniqueStrings l, indexOf_uniqueStrings l⟩

/-! ## The stages of `prepareProjectData` -/

theorem foldl_processComponent_lists (toLowerRune : Char → Char) (cs : List Component) :
    ∀ d : ProjectData,
      (cs.foldl (processComponent toLowerRune) d).IncludeComps
          = d.IncludeComps ++ cs.flatMap (fun c => c.IncludeComponents) ∧
      (cs.foldl (processComponent toLowerRune) d).NetworkComps
          = d.NetworkComps ++ cs.flatMap (fun c => c.NetworkComponents) ∧
      (cs.foldl (processComponent toLowerRune) d).BLSysComps
          = d.BLSysComps ++ cs.flatMap (fun c => c.BLSysComponents) ∧
      (cs.foldl (processComponent toLowerRune) d).VFSComps
          = d.VFSComps ++ cs.flatMap (fun c => c.VFSComponents) ∧
      (cs.foldl (processComponent toLowerRune) d).MQTTComps
          = d.MQTTComps ++ cs.flatMap (fun c => c.MQTTComponents) ∧
      (cs.foldl (processComponent toLowerRune) d).ConfigFlags
          = cs.foldl (fun m c => mergeConfigFlags m c.ConfigFlags) d.ConfigFlags := by
  induction cs with
  | nil => intro d; simp
  | cons c cs ih =>
    intro d
    simp only [List.foldl_cons, List.flatMap_cons]
    obtain ⟨h1, h2, h3, h4, h5, h6⟩ := ih (processComponent toLowerRune d c)
    rw [h1, h2, h3, h4, h5, h6]
    simp [processComponent, List.append_assoc]

theorem foldl_processComponent_flags (toLowerRune : Char → Char) (cs : List Component) :
    ∀ d : ProjectData,
      (cs.foldl (processComponent toLowerRune) d).HasWifi
          = (d.HasWifi || nameMatches toLowerRune cs "wifi") ∧
      (cs.foldl (processComponent toLowerRune) d).HasBLE
          = (d.HasBLE || (nameMatches toLowerRune cs "ble"
              || nameMatches toLowerRune cs "bluetooth")) ∧
      ProjectData.HasGPIO (cs.foldl (processComponent toLowerRune) d)
          = ( ProjectData.HasGPIO d || nameMatches toLowerRune cs "gpio") := by
  induction cs with
  | nil => intro d; simp [nameMatches]
  | cons c cs ih =>
    intro d
    simp only [List.foldl_cons]
    obtain ⟨h1, h2, h3⟩ := ih (processComponent toLowerRune d c)
    rw [h1, h2, h3]
    simp only [processComponent, nameMatches, List.any_cons]
    refine ⟨?_, ?_, ?_⟩
    · cases strings.Contains (strings.ToLower toLowerRune c.Name) "wifi" <;>
        cases d.HasWifi <;> simp
    · cases strings.Contains (strings.ToLower toLowerRune c.Name) "ble" <;>
        cases strings.Contains (strings.ToLower toLowerRune c.Name) "bluetooth" <;>
        cases d.HasBLE <;>
        cases cs.any (fun c => strings.Contains (strings.ToLower toLowerRune c.Name) "ble") <;>
        simp
    · cases strings.Contains (strings.ToLower toLowerRune c.Name) "gpio" <;>
        cases ProjectData.HasGPIO d <;> simp

/-- What the blocks after the loop and the final de-duplication make of the
record `F` the loop has produced. -/
theorem stages_fields (F : ProjectData) :
    (dedupLists (applyMQTT (applySmartconfig (applyWifi F)))).HasWifi = F.HasWifi ∧
    (dedupLists (applyMQTT (applySmartconfig (applyWifi F)))).HasBLE = F.HasBLE ∧
    ProjectData.HasGPIO (dedupLists (applyMQTT (applySmartconfig (applyWifi F))))
      = ProjectData.HasGPIO F ∧
    (dedupLists (applyMQTT (applySmartconfig (applyWifi F)))).HasSmartconfig
      = F.HasSmartconfig ∧
    (dedupLists (applyMQTT (applySmartconfig (applyWifi F)))).HasMQTT = F.HasMQTT ∧
    (dedupLists (applyMQTT (applySmartconfig (applyWifi F)))).IncludeComps
      = uniqueStrings (F.IncludeComps ++ (if F.HasWifi then wifiComps else [])
          ++ (if F.HasSmartconfig then ["smartconfig_airkiss"] else [])
          ++ (if F.HasMQTT then ["httpc"] else [])) ∧
    (dedupLists (applyMQTT (applySmartconfig (applyWifi F)))).NetworkComps
      = uniqueStrings (F.NetworkComps ++ (if F.HasWifi then ["sntp", "dns_server"] else [])) ∧
    (dedupLists (applyMQTT (applySmartconfig (applyWifi F)))).BLSysComps
      = uniqueStrings (F.BLSysComps ++ (if F.HasWifi then ["blota", "loopadc"] else [])) ∧
    (dedupLists (applyMQTT (applySmartconfig (applyWifi F)))).VFSComps
      = uniqueStrings F.VFSComps ∧
    (dedupLists (applyMQTT (applySmartconfig (applyWifi F)))).MQTTComps
      = uniqueStrings F.MQTTComps ∧
    (dedupLists (applyMQTT (applySmartconfig (applyWifi F)))).ConfigFlags
      = if F.HasWifi then F.ConfigFlags.insert "CONFIG_WIFI" "1" else F.ConfigFlags := by
  cases hw : F.HasWifi <;> cases hs : F.HasSmartconfig <;> cases hm : F.HasMQTT <;>
    simp [dedupLists, applyMQTT, applySmartconfig, applyWifi, hw, hs, hm]

/-! ## Merging flag maps -/

theorem lookup_foldl_insert (l : List (Sigma fun _ : String => String)) :
    l.NodupKeys → ∀ (m : GoMap String) (k : String),
      (l.foldl (fun m e => m.insert e.1 e.2) m).lookup k
        = match l.dlookup k with
          | some v => some v
          | none => m.lookup k := by
  induction l with
  | nil => intro _ m k; simp
  | cons e t ih =>
    intro hl m k
    rw [List.nodupKeys_cons] at hl
    rw [List.foldl_cons, ih hl.2]
    by_cases hk : k = e.1
    · subst hk
      have hnone : List.dlookup e.1 t = none := List.dlookup_eq_none.mpr hl.1
      rw [hnone]
      obtain ⟨a, b⟩ := e
      simp [AList.lookup_insert]
    · obtain ⟨a, b⟩ := e
      rw [List.dlookup_cons_ne _ _ hk, AList.lookup_insert_ne hk]

theorem lookup_mergeConfigFlags (m cf : GoMap String) (k : String) :
    (mergeConfigFlags m cf).lookup k
      = match cf.lookup k with
        | some v => some v
        | none => m.lookup k :=
  lookup_foldl_insert cf.entries cf.nodupKeys m k

theorem lookup_foldl_merge_none (cs : List Component) (k : String)
    (h : ∀ c ∈ cs, c.ConfigFlags.lookup k = none) :
    ∀ m : GoMap String,
      (cs.foldl (fun m c => mergeConfigFlags m c.ConfigFlags) m).lookup k = m.lookup k := by
  induction cs with
  | nil => intro m; rfl
  | cons c cs ih =>
    intro m
    rw [List.foldl_cons, ih (fun c' hc' => h c' (List.mem_cons_of_mem _ hc')),
      lookup_mergeConfigFlags, h c (List.mem_cons_self _ _)]

theorem lookup_foldl_merge_last (pre post : List Component) (c : Component) (k v : String)
    (hc : c.ConfigFlags.lookup k = some v)
    (hpost : ∀ c' ∈ post, c'.ConfigFlags.lookup k = none) (m : GoMap String) :
    ((pre ++ c :: post).foldl (fun m c => mergeConfigFlags m c.ConfigFlags) m).lookup k
      = some v := by
  rw [List.foldl_append, List.foldl_cons, lookup_foldl_merge_none post k hpost,
    lookup_mergeConfigFlags, hc]

/-- The fields of the record `prepareProjectData` returns, in terms of the
components. -/
theorem prepareProjectData_fields (toLowerRune : Char → Char) (g : Generator)
    (projectName : String) (components : List Component) :
    (prepareProjectData toLowerRune g projectName components).HasWifi
      = nameMatches toLowerRune components "wifi" ∧
    (prepareProjectData toLowerRune g projectName components).HasBLE
      = (nameMatches toLowerRune components "ble"
          || nameMatches toLowerRune components "bluetooth") ∧
    ProjectData.HasGPIO (prepareProjectData toLowerRune g projectName components)
      = nameMatches toLowerRune components "gpio" ∧
    (prepareProjectData toLowerRune g projectName components).IncludeComps
      = uniqueStrings (baseIncludeComps
          ++ components.flatMap (fun c => c.IncludeComponents)
          ++ (if (prepareProjectData toLowerRune g projectName components).HasWifi
              then wifiComps else [])
          ++ (if (prepareProjectData toLowerRune g projectName components).HasSmartconfig
              then ["smartconfig_airkiss"] else [])
          ++ (if (prepareProjectData toLowerRune g projectName components).HasMQTT
              then ["httpc"] else [])) ∧
    (prepareProjectData toLowerRune g projectName components).NetworkComps
      = uniqueStrings (components.flatMap (fun c => c.NetworkComponents)
          ++ (if (prepareProjectData toLowerRune g projectName components).HasWifi
              then ["sntp", "dns_server"] else [])) ∧
    (prepareProjectData toLowerRune g projectName components).BLSysComps
      = uniqueStrings (baseBLSysComps
          ++ components.flatMap (fun c => c.BLSysComponents)
          ++ (if (prepareProjectData toLowerRune g projectName components).HasWifi
              then ["blota", "loopadc"] else [])) ∧
    (prepareProjectData toLowerRune g projectName components).VFSComps
      = uniqueStrings (baseVFSComps ++ components.flatMap (fun c => c.VFSComponents)) ∧
    (prepareProjectData toLowerRune g projectName components).MQTTComps
      = uniqueStrings (components.flatMap (fun c => c.MQTTComponents)) ∧
    (prepareProjectData toLowerRune g projectName components).ConfigFlags
      = if (prepareProjectData toLowerRune g projectName components).HasWifi
        then (components.foldl (fun m c => mergeConfigFlags m c.ConfigFlags) ∅).insert
          "CONFIG_WIFI" "1"
        else components.foldl (fun m c => mergeConfigFlags m c.ConfigFlags) ∅ := by
  obtain ⟨w, b, gp, sc, mq, i1, i2, i3, i4, i5, i6⟩ := stages_fields
    (components.foldl (processComponent toLowerRune)
      (seedProjectData g projectName components))
  obtain ⟨l1, l2, l3, l4, l5, l6⟩ := foldl_processComponent_lists toLowerRune components
    (seedProjectData g projectName components)
  obtain ⟨f1, f2, f3⟩ := foldl_processComponent_flags toLowerRune components
    (seedProjectData g projectName components)
  unfold prepareProjectData
  rw [w, b, gp, sc, mq, i1, i2, i3, i4, i5, i6, l1, l2, l3, l4, l5, l6, f1, f2, f3]
  simp [seedProjectData]

/-! ## Claims about `prepareProjectData` -/

/-- Counterexample to C7 as stated: the only component, named `wifi`, sets the key
`CONFIG_WIFI` to `0`, and the flag map of the result holds `1` for that key. -/
theorem prepareProjectData_last_write_counterexample :
    wifiOffComponent.ConfigFlags.lookup "CONFIG_WIFI" = some "0" ∧
      (prepareProjectData Char.toLower ⟨"/sdk"⟩ "demo" [wifiOffComponent]).ConfigFlags.lookup
          "CONFIG_WIFI" = some "1" ∧
      (prepareProjectData Char.toLower ⟨"/sdk"⟩ "demo" [wifiOffComponent]).ConfigFlags.lookup
          "CONFIG_WIFI" ≠ wifiOffComponent.ConfigFlags.lookup "CONFIG_WIFI" := by
  refine ⟨by decide, by decide, by decide⟩

/-- C7, amended (last write wins): when `c` is the last component of the list that
sets the flag key `K`, and sets it to `v`, then `ConfigFlags[K]` is `v`, unless
`K` is `CONFIG_WIFI` and the name of some component matches the networking
capability; in that case `ConfigFlags["CONFIG_WIFI"]` is `1`. -/
theorem prepareProjectData_last_write_wins (toLowerRune : Char → Char) (g : Generator)
    (projectName : String) (pre post : List Component) (c : Component) (K v : String)
    (hc : c.ConfigFlags.lookup K = some v)
    (hpost : ∀ c' ∈ post, c'.ConfigFlags.lookup K = none) :
    ((K = "CONFIG_WIFI" → nameMatches toLowerRune (pre ++ c :: post) "wifi" = false) →
        (prepareProjectData toLowerRune g projectName (pre ++ c :: post)).ConfigFlags.lookup K
          = some v) ∧
      (K = "CONFIG_WIFI" → nameMatches toLowerRune (pre ++ c :: post) "wifi" = true →
        (prepareProjectData toLowerRune g projectName (pre ++ c :: post)).ConfigFlags.lookup K
          = some "1") := by
  obtain ⟨hw, _, _, _, _, _, _, _, hflags⟩ :=
    prepareProjectData_fields toLowerRune g projectName (pre ++ c :: post)
  have hlast := lookup_foldl_merge_last pre post c K v hc hpost ∅
  rw [hflags, hw]
  constructor
  · intro hK
    cases hm : nameMatches toLowerRune (pre ++ c :: post) "wifi" with
    | false => simpa using hlast
    | true =>
      have hne : K ≠ "CONFIG_WIFI" := fun h => by
        have := hK h
        rw [hm] at this
        cases this
      simp only [if_true]
      rw [AList.lookup_insert_ne hne]
      exact hlast
  · intro hK hm
    subst hK
    rw [hm]
    simp [AList.lookup_insert]

/-- Witness of the amended C7: `gpio` sets `CONFIG_LOG` to `1`, then `uart` sets it
to `2`; the result holds `2`. -/
theorem prepareProjectData_last_write_wins_witness :
    uartLogComponent.ConfigFlags.lookup "CONFIG_LOG" = some "2" ∧
      (∀ c' ∈ ([] : List Component), c'.ConfigFlags.lookup "CONFIG_LOG" = none) ∧
      (prepareProjectData Char.toLower ⟨"/sdk"⟩ "demo"
          ([gpioLogComponent] ++ uartLogComponent :: [])).ConfigFlags.lookup "CONFIG_LOG"
        = some "2" :=
  ⟨by decide, by simp,
    (prepareProjectData_last_write_wins Char.toLower ⟨"/sdk"⟩ "demo"
      [gpioLogComponent] [] uartLogComponent "CONFIG_LOG" "2" (by decide) (by simp)).1
      (by decide)⟩

/-- C8 (stable de-duplication): each of the five lists of the result has no token
twice, holds the non-empty tokens of the sequence baseline ++ contributions of the
components in list order ++ derived bundles, and holds them in the order of their
first occurrences in that sequence; the lists are not sorted: with no component,
`IncludeComps` is the baseline, which begins with `freertos_riscv_ram`, `bl602`. -/
theorem prepareProjectData_stable_dedup (toLowerRune : Char → Char) (g : Generator)
    (projectName : String) (components : List Component) :
    StableDedup (prepareProjectData toLowerRune g projectName components).IncludeComps
        (baseIncludeComps
          ++ components.flatMap (fun c => c.IncludeComponents)
          ++ (if (prepareProjectData toLowerRune g projectName components).HasWifi
              then wifiComps else [])
          ++ (if (prepareProjectData toLowerRune g projectName components).HasSmartconfig
              then ["smartconfig_airkiss"] else [])
          ++ (if (prepareProjectData toLowerRune g projectName components).HasMQTT
              then ["httpc"] else [])) ∧
      StableDedup (prepareProjectData toLowerRune g projectName components).NetworkComps
        (components.flatMap (fun c => c.NetworkComponents)
          ++ (if (prepareProjectData toLowerRune g projectName components).HasWifi
              then ["sntp", "dns_server"] else [])) ∧
      StableDedup (prepareProjectData toLowerRune g projectName components).BLSysComps
        (baseBLSysComps
          ++ components.flatMap (fun c => c.BLSysComponents)
          ++ (if (prepareProjectData toLowerRune g projectName components).HasWifi
              then ["blota", "loopadc"] else [])) ∧
      StableDedup (prepareProjectData toLowerRune g projectName components).VFSComps
        (baseVFSComps ++ components.flatMap (fun c => c.VFSComponents)) ∧
      StableDedup (prepareProjectData toLowerRune g projectName components).MQTTComps
        (components.flatMap (fun c => c.MQTTComponents)) ∧
      (prepareProjectData toLowerRune g projectName []).IncludeComps = baseIncludeComps ∧
      ¬ List.Sorted (fun a b : String => a ≤ b) baseIncludeComps := by
  obtain ⟨_, _, _, h1, h2, h3, h4, h5, _⟩ :=
    prepareProjectData_fields toLowerRune g projectName components
  refine ⟨?_, ?_, ?_, ?_, ?_, rfl, ?_⟩
  · rw [h1]; exact stableDedup_uniqueStrings _
  · rw [h2]; exact stableDedup_uniqueStrings _
  · rw [h3]; exact stableDedup_uniqueStrings _
  · rw [h4]; exact stableDedup_uniqueStrings _
  · rw [h5]; exact stableDedup_uniqueStrings _
  · intro hs
    have hle : "freertos_riscv_ram" ≤ "bl602" :=
      List.rel_of_sorted_cons hs "bl602" (by decide)
    rw [String.le_iff_toList_le] at hle
    exact absurd hle (by decide)

/-- C9 (capability flags): `HasWifi` holds exactly when the lower-cased name of
some component contains `wifi`, `HasBLE` when one contains `ble` or `bluetooth`,
`HasGPIO` when one contains `gpio`; with no component every capability flag is
false; the components `wifi` and `gpio` of `TestPrepareProjectData` give `HasWifi`
and `HasGPIO`, and the upper-case name `WIFI_AP` gives `HasWifi`. -/
theorem prepareProjectData_capability_flags :
    (∀ (toLowerRune : Char → Char) (g : Generator) (projectName : String)
        (components : List Component),
      ((prepareProjectData toLowerRune g projectName components).HasWifi = true ↔
          ∃ c ∈ components,
            strings.Contains (strings.ToLower toLowerRune c.Name) "wifi" = true) ∧
        ((prepareProjectData toLowerRune g projectName components).HasBLE = true ↔
          ∃ c ∈ components,
            strings.Contains (strings.ToLower toLowerRune c.Name) "ble" = true ∨
              strings.Contains (strings.ToLower toLowerRune c.Name) "bluetooth" = true) ∧
        ( ProjectData.HasGPIO (prepareProjectData toLowerRune g projectName components)
            = true ↔
          ∃ c ∈ components,
            strings.Contains (strings.ToLower toLowerRune c.Name) "gpio" = true)) ∧
      (∀ (toLowerRune : Char → Char) (g : Generator) (projectName : String),
        (prepareProjectData toLowerRune g projectName []).HasWifi = false ∧
        (prepareProjectData toLowerRune g projectName []).HasMQTT = false ∧
        (prepareProjectData toLowerRune g projectName []).HasBLE = false ∧
        (prepareProjectData toLowerRune g projectName []).HasHTTP = false ∧
        (prepareProjectData toLowerRune g projectName []).HasStorage = false ∧
        ProjectData.HasGPIO (prepareProjectData toLowerRune g projectName []) = false ∧
        (prepareProjectData toLowerRune g projectName []).HasUART = false ∧
        (prepareProjectData toLowerRune g projectName []).HasI2C = false ∧
        (prepareProjectData toLowerRune g projectName []).HasSPI = false ∧
        (prepareProjectData toLowerRune g projectName []).HasPWM = false ∧
        (prepareProjectData toLowerRune g projectName []).HasADC = false ∧
        (prepareProjectData toLowerRune g projectName []).HasTimer = false ∧
        (prepareProjectData toLowerRune g projectName []).HasSmartconfig = false ∧
        (prepareProjectData toLowerRune g projectName []).HasBlufi = false ∧
        (prepareProjectData toLowerRune g projectName []).HasHTTPS = false ∧
        (prepareProjectData toLowerRune g projectName []).HasLWIPTLS = false) ∧
      (prepareProjectData Char.toLower ⟨"/test/sdk/path"⟩ "test_project"
          testComponents).HasWifi = true ∧
      ProjectData.HasGPIO (prepareProjectData Char.toLower ⟨"/test/sdk/path"⟩ "test_project"
          testComponents) = true ∧
      (prepareProjectData Char.toLower ⟨"/test/sdk/path"⟩ "test_project"
          [{ Name := "WIFI_AP" }]).HasWifi = true := by
  refine ⟨?_, ?_, by decide, by decide, by decide⟩
  · intro toLowerRune g projectName components
    obtain ⟨hw, hb, hg, _⟩ := prepareProjectData_fields toLowerRune g projectName components
    rw [hw, hb, hg]
    simp only [nameMatches, Bool.or_eq_true, List.any_eq_true]
    refine ⟨trivial, ?_, trivial⟩
    constructor
    · rintro (⟨c, hc, h⟩ | ⟨c, hc, h⟩)
      · exact ⟨c, hc, Or.inl h⟩
      · exact ⟨c, hc, Or.inr h⟩
    · rintro ⟨c, hc, h | h⟩
      · exact Or.inl ⟨c, hc, h⟩
      · exact Or.inr ⟨c, hc, h⟩
  · intro toLowerRune g projectName
    exact ⟨rfl, rfl, rfl, rfl, rfl, rfl, rfl, rfl, rfl, rfl, rfl, rfl, rfl, rfl, rfl, rfl⟩

/-- C10 (the networking bundle is applied once): when the lower-cased name of at
least one component contains `wifi`, each of the nine bundle tokens occurs exactly
once in `IncludeComps`, `sntp` and `dns_server` exactly once in `NetworkComps`,
`blota` and `loopadc` exactly once in `BLSysComps`, and `ConfigFlags["CONFIG_WIFI"]`
is `1`, however many components match. -/
theorem prepareProjectData_wifi_bundle_once (toLowerRune : Char → Char) (g : Generator)
    (projectName : String) (components : List Component)
    (h : ∃ c ∈ components,
      strings.Contains (strings.ToLower toLowerRune c.Name) "wifi" = true) :
    (∀ t ∈ ["wifi", "wifi_manager", "wpa_supplicant", "bl_os_adapter", "wifi_hosal",
          "lwip_dhcpd", "netutils", "blcrypto_suite", "rfparam_adapter_tmp"],
        (prepareProjectData toLowerRune g projectName components).IncludeComps.count t = 1) ∧
      (prepareProjectData toLowerRune g projectName components).NetworkComps.count "sntp" = 1 ∧
      (prepareProjectData toLowerRune g projectName components).NetworkComps.count "dns_server"
        = 1 ∧
      (prepareProjectData toLowerRune g projectName components).BLSysComps.count "blota" = 1 ∧
      (prepareProjectData toLowerRune g projectName components).BLSysComps.count "loopadc"
        = 1 ∧
      (prepareProjectData toLowerRune g projectName components).ConfigFlags.lookup "CONFIG_WIFI"
        = some "1" := by
  obtain ⟨hw, _, _, h1, h2, h3, _, _, hflags⟩ :=
    prepareProjectData_fields toLowerRune g projectName components
  have hwifi : (prepareProjectData toLowerRune g projectName components).HasWifi = true := by
    rw [hw]
    simpa only [nameMatches, List.any_eq_true] using h
  rw [hwifi] at h1 h2 h3 hflags
  simp only [if_true] at h1 h2 h3 hflags
  have once : ∀ (l : List String) (t : String), t ∈ l → t ≠ "" →
      (uniqueStrings l).count t = 1 := fun l t ht hne =>
    List.count_eq_one_of_mem (nodup_uniqueStrings l) ((mem_uniqueStrings l t).mpr ⟨ht, hne⟩)
  refine ⟨?_, ?_, ?_, ?_, ?_, ?_⟩
  · intro t ht
    rw [h1]
    apply once
    · have : t ∈ wifiComps := ht
      simp only [List.mem_append]
      exact Or.inl (Or.inl (Or.inr this))
    · intro hempty
      subst hempty
      exact absurd ht (by decide)
  · rw [h2]; exact once _ _ (by simp) (by decide)
  · rw [h2]; exact once _ _ (by simp) (by decide)
  · rw [h3]; exact once _ _ (by simp) (by decide)
  · rw [h3]; exact once _ _ (by simp) (by decide)
  · rw [hflags]
    simp [AList.lookup_insert]

/-- Witness of C10: two components match the networking capability, one of them
contributing `wifi`, `wifi_manager` and `sntp` itself. -/
theorem prepareProjectData_wifi_bundle_once_witness :
    (∃ c ∈ twoWifiComponents,
        strings.Contains (strings.ToLower Char.toLower c.Name) "wifi" = true) ∧
      (∀ t ∈ ["wifi", "wifi_manager", "wpa_supplicant", "bl_os_adapter", "wifi_hosal",
          "lwip_dhcpd", "netutils", "blcrypto_suite", "rfparam_adapter_tmp"],
        (prepareProjectData Char.toLower ⟨"/sdk"⟩ "demo" twoWifiComponents).IncludeComps.count t
          = 1) ∧
      (prepareProjectData Char.toLower ⟨"/sdk"⟩ "demo" twoWifiComponents).NetworkComps.count
          "sntp" = 1 ∧
      (prepareProjectData Char.toLower ⟨"/sdk"⟩ "demo" twoWifiComponents).ConfigFlags.lookup
          "CONFIG_WIFI" = some "1" :=
  ⟨⟨_, List.mem_cons_self _ _, by decide⟩,
    (prepareProjectData_wifi_bundle_once Char.toLower ⟨"/sdk"⟩ "demo" twoWifiComponents
      ⟨_, List.mem_cons_self _ _, by decide⟩).1,
    (prepareProjectData_wifi_bundle_once Char.toLower ⟨"/sdk"⟩ "demo" twoWifiComponents
      ⟨_, List.mem_cons_self _ _, by decide⟩).2.1,
    (prepareProjectData_wifi_bundle_once Char.toLower ⟨"/sdk"⟩ "demo" twoWifiComponents
      ⟨_, List.mem_cons_self _ _, by decide⟩).2.2.2.2.2⟩

/-! ## Further facts about `uniqueStrings` -/

theorem uniqueStrings_begins (l r : List String) :
    uniqueStrings l <+: uniqueStrings (l ++ r) := by
  induction r using List.reverseRecOn with
  | nil => simp
  | append_singleton r s ih =>
    rw [← List.append_assoc, uniqueStrings_append_singleton]
    split
    · exact ih.trans (List.prefix_append _ _)
    · exact ih

theorem uniqueStrings_eq_self (l : List String) (hnd : l.Nodup) (hne : "" ∉ l) :
    uniqueStrings l = l := by
  induction l using List.reverseRecOn with
  | nil => rfl
  | append_singleton l s ih =>
    rw [List.nodup_append] at hnd
    have hl : uniqueStrings l = l := ih hnd.1 (fun h => hne (List.mem_append_left _ h))
    have hs : s ∉ l := fun h => hnd.2.2 h (List.mem_singleton_self s)
    have hs' : s ≠ "" := fun h => hne (by rw [h]; simp)
    rw [uniqueStrings_append_singleton, hl, if_pos ⟨hs', hs⟩]

theorem uniqueStrings_idem (l : List String) :
    uniqueStrings (uniqueStrings l) = uniqueStrings l :=
  uniqueStrings_eq_self _ (nodup_uniqueStrings l)
    (fun h => ((mem_uniqueStrings l "").mp h).2 rfl)

/-! ## Claims about the baseline and the contributions -/

/-- C11 (baseline seeding): for every component list, `IncludeComps` begins with the
14 baseline tokens, `BLSysComps` with the six baseline tokens and `VFSComps` with
`romfs` (the baselines of `NetworkComps` and `MQTTComps` are empty); with an empty
component list the five lists are exactly their baselines and the flag map is
empty. -/
theorem prepareProjectData_baseline (toLowerRune : Char → Char) (g : Generator)
    (projectName : String) (components : List Component) :
    ["freertos_riscv_ram", "bl602", "bl602_std", "newlibc", "hosal", "mbedtls_lts", "lwip",
        "vfs", "yloop", "utils", "cli", "blog", "blog_testc", "coredump"]
        <+: (prepareProjectData toLowerRune g projectName components).IncludeComps ∧
      ["bltime", "blfdt", "blmtd", "bloop", "looprt", "loopset"]
        <+: (prepareProjectData toLowerRune g projectName components).BLSysComps ∧
      ["romfs"] <+: (prepareProjectData toLowerRune g projectName components).VFSComps ∧
      (prepareProjectData toLowerRune g projectName []).IncludeComps
        = ["freertos_riscv_ram", "bl602", "bl602_std", "newlibc", "hosal", "mbedtls_lts",
            "lwip", "vfs", "yloop", "utils", "cli", "blog", "blog_testc", "coredump"] ∧
      (prepareProjectData toLowerRune g projectName []).NetworkComps = [] ∧
      (prepareProjectData toLowerRune g projectName []).BLSysComps
        = ["bltime", "blfdt", "blmtd", "bloop", "looprt", "loopset"] ∧
      (prepareProjectData toLowerRune g projectName []).VFSComps = ["romfs"] ∧
      (prepareProjectData toLowerRune g projectName []).MQTTComps = [] ∧
      (prepareProjectData toLowerRune g projectName []).ConfigFlags = ∅ := by
  obtain ⟨_, _, _, h1, _, h3, h4, _, _⟩ :=
    prepareProjectData_fields toLowerRune g projectName components
  refine ⟨?_, ?_, ?_, rfl, rfl, rfl, rfl, rfl, rfl⟩
  · rw [h1, List.append_assoc, List.append_assoc, List.append_assoc]
    have h := uniqueStrings_begins baseIncludeComps
      (components.flatMap (fun c => c.IncludeComponents)
        ++ ((if (prepareProjectData toLowerRune g projectName components).HasWifi
              then wifiComps else [])
          ++ ((if (prepareProjectData toLowerRune g projectName components).HasSmartconfig
              then ["smartconfig_airkiss"] else [])
            ++ (if (prepareProjectData toLowerRune g projectName components).HasMQTT
              then ["httpc"] else []))))
    exact h
  · rw [h3, List.append_assoc]
    exact uniqueStrings_begins baseBLSysComps _
  · rw [h4]
    exact uniqueStrings_begins baseVFSComps _

/-- Counterexample to C12 as stated: the component contributes the empty token to
the include list, and the empty token is not in `IncludeComps`. -/
theorem prepareProjectData_contribution_counterexample :
    emptyTokenComponent ∈ [emptyTokenComponent] ∧
      "" ∈ emptyTokenComponent.IncludeComponents ∧
      "" ∉ (prepareProjectData Char.toLower ⟨"/sdk"⟩ "demo" [emptyTokenComponent]).IncludeComps :=
  ⟨List.mem_singleton_self _, by decide, by decide⟩

/-- C12, amended (no contribution is lost): for every component `c` of the list,
every non-empty token of one of the five contribution lists of `c` is a member of
the matching list of the result. -/
theorem prepareProjectData_contributions_kept (toLowerRune : Char → Char) (g : Generator)
    (projectName : String) (components : List Component) (c : Component) (t : String)
    (hc : c ∈ components) (ht : t ≠ "") :
    (t ∈ c.IncludeComponents →
        t ∈ (prepareProjectData toLowerRune g projectName components).IncludeComps) ∧
      (t ∈ c.NetworkComponents →
        t ∈ (prepareProjectData toLowerRune g projectName components).NetworkComps) ∧
      (t ∈ c.BLSysComponents →
        t ∈ (prepareProjectData toLowerRune g projectName components).BLSysComps) ∧
      (t ∈ c.VFSComponents →
        t ∈ (prepareProjectData toLowerRune g projectName components).VFSComps) ∧
      (t ∈ c.MQTTComponents →
        t ∈ (prepareProjectData toLowerRune g projectName components).MQTTComps) := by
  obtain ⟨_, _, _, h1, h2, h3, h4, h5, _⟩ :=
    prepareProjectData_fields toLowerRune g projectName components
  rw [h1, h2, h3, h4, h5]
  simp only [mem_uniqueStrings, List.mem_append, List.mem_flatMap]
  refine ⟨?_, ?_, ?_, ?_, ?_⟩
  · intro h; exact ⟨Or.inl (Or.inl (Or.inl (Or.inr ⟨c, hc, h⟩))), ht⟩
  · intro h; exact ⟨Or.inl ⟨c, hc, h⟩, ht⟩
  · intro h; exact ⟨Or.inl (Or.inr ⟨c, hc, h⟩), ht⟩
  · intro h; exact ⟨Or.inr ⟨c, hc, h⟩, ht⟩
  · intro h; exact ⟨⟨c, hc, h⟩, ht⟩

/-- Witness of the amended C12: the component `wifi` of `TestPrepareProjectData`
contributes `wifi_station`, which is in `IncludeComps`. -/
theorem prepareProjectData_contributions_kept_witness :
    "wifi_station" ≠ "" ∧
      "wifi_station" ∈ (prepareProjectData Char.toLower ⟨"/test/sdk/path"⟩ "test_project"
        testComponents).IncludeComps :=
  ⟨by decide,
    (prepareProjectData_contributions_kept Char.toLower ⟨"/test/sdk/path"⟩ "test_project"
      testComponents
      { Name := "wifi", Description := "WiFi component", Category := "network",
        IncludeComponents := ["wifi_station", "wifi_softap"],
        ConfigFlags := AList.singleton "CONFIG_WIFI_ENABLE" "1" }
      "wifi_station" (List.mem_cons_self _ _) (by decide)).1 (by decide)⟩

/-- C13 (idempotent de-duplication): `uniqueStrings` applied to its own output
returns that output, and so it leaves each of the five lists of the result of
`prepareProjectData` unchanged. -/
theorem prepareProjectData_dedup_idempotent :
    (∀ xs : List String, uniqueStrings (uniqueStrings xs) = uniqueStrings xs) ∧
      ∀ (toLowerRune : Char → Char) (g : Generator) (projectName : String)
        (components : List Component),
        uniqueStrings (prepareProjectData toLowerRune g projectName components).IncludeComps
          = (prepareProjectData toLowerRune g projectName components).IncludeComps ∧
        uniqueStrings (prepareProjectData toLowerRune g projectName components).NetworkComps
          = (prepareProjectData toLowerRune g projectName components).NetworkComps ∧
        uniqueStrings (prepareProjectData toLowerRune g projectName components).BLSysComps
          = (prepareProjectData toLowerRune g projectName components).BLSysComps ∧
        uniqueStrings (prepareProjectData toLowerRune g projectName components).VFSComps
          = (prepareProjectData toLowerRune g projectName components).VFSComps ∧
        uniqueStrings (prepareProjectData toLowerRune g projectName components).MQTTComps
          = (prepareProjectData toLowerRune g projectName components).MQTTComps := by
  refine ⟨uniqueStrings_idem, ?_⟩
  intro toLowerRune g projectName components
  obtain ⟨_, _, _, h1, h2, h3, h4, h5, _⟩ :=
    prepareProjectData_fields toLowerRune g projectName components
  refine ⟨?_, ?_, ?_, ?_, ?_⟩
  · rw [h1]; exact uniqueStrings_idem _
  · rw [h2]; exact uniqueStrings_idem _
  · rw [h3]; exact uniqueStrings_idem _
  · rw [h4]; exact uniqueStrings_idem _
  · rw [h5]; exact uniqueStrings_idem _

/-! ## Project names -/

theorem utf8ByteSize_pos_iff (s : String) : s.utf8ByteSize > 0 ↔ s ≠ "" := by
  obtain ⟨l⟩ := s
  cases l with
  | nil => simp [String.utf8ByteSize, String.utf8ByteSize.go]
  | cons c cs =>
    have hc := Char.utf8Size_pos c
    have hne : (⟨c :: cs⟩ : String) ≠ "" := by
      intro h
      have := congrArg String.data h
      simp at this
    simp only [String.utf8ByteSize, String.utf8ByteSize.go, gt_iff_lt, ne_eq, hne,
      not_false_eq_true, iff_true]
    omega

theorem isValidProjectNameLoop_eq (len : Nat) (l : List Char) :
    isValidProjectNameLoop len l = true ↔ len > 0 ∧ ∀ r ∈ l, nameRuneAllowed r = true := by
  induction l with
  | nil => simp [isValidProjectNameLoop]
  | cons r rest ih =>
    simp only [isValidProjectNameLoop, List.mem_cons, forall_eq_or_imp]
    cases h : nameRuneAllowed r with
    | false => simp
    | true => simpa using ih

/-- C19 (project-name validation): `isValidProjectName s` is true exactly when `s`
is non-empty and each of its characters is an ASCII letter, an ASCII digit, an
underscore or a hyphen; the ten cases of `TestIsValidProjectName` come out as the
test expects. -/
theorem isValidProjectName_iff :
    (∀ s : String, isValidProjectName s = true ↔
        s ≠ "" ∧ ∀ r ∈ s.data,
          ('a' ≤ r ∧ r ≤ 'z') ∨ ('A' ≤ r ∧ r ≤ 'Z') ∨ ('0' ≤ r ∧ r ≤ '9') ∨
            r = '_' ∨ r = '-') ∧
      isValidProjectName "myproject" = true ∧
      isValidProjectName "project123" = true ∧
      isValidProjectName "my_project" = true ∧
      isValidProjectName "my-project" = true ∧
      isValidProjectName "-project" = true ∧
      isValidProjectName "123project" = true ∧
      isValidProjectName "" = false ∧
      isValidProjectName "my project" = false ∧
      isValidProjectName "my@project" = false ∧
      isValidProjectName "a" = true := by
  refine ⟨?_, by decide, by decide, by decide, by decide, by decide, by decide, by decide,
    by decide, by decide, by decide⟩
  intro s
  unfold isValidProjectName
  rw [isValidProjectNameLoop_eq, utf8ByteSize_pos_iff]
  apply and_congr_right
  intro _
  apply forall_congr'
  intro r
  apply imp_congr_right
  intro _
  simp only [nameRuneAllowed, Bool.or_eq_true, Bool.and_eq_true, decide_eq_true_eq,
    beq_iff_eq]
  tauto

/-! ## `strings.Split` and the line mode of the selection -/

theorem splitRunes_ne_nil (sep : Char) (l : List Char) : splitRunes sep l ≠ [] := by
  cases l with
  | nil => simp [splitRunes]
  | cons c cs =>
    simp only [splitRunes]
    split
    · simp
    · split <;> simp

/-- No piece of `splitRunes sep l` holds the separator. -/
theorem splitRunes_no_sep (sep : Char) (l : List Char) :
    ∀ w ∈ splitRunes sep l, sep ∉ w := by
  induction l with
  | nil => intro w hw; simp [splitRunes] at hw; subst hw; simp
  | cons c cs ih =>
    intro w hw
    simp only [splitRunes] at hw
    by_cases hc : c = sep
    · rw [if_pos hc] at hw
      rcases List.mem_cons.mp hw with h | h
      · subst h; simp
      · exact ih w h
    · rw [if_neg hc] at hw
      cases hs : splitRunes sep cs with
      | nil => exact absurd hs (splitRunes_ne_nil sep cs)
      | cons v vs =>
        rw [hs] at hw ih
        rcases List.mem_cons.mp hw with h | h
        · subst h
          intro hmem
          rcases List.mem_cons.mp hmem with h' | h'
          · exact hc h'.symm
          · exact ih v (List.mem_cons_self _ _) h'
        · exact ih w (List.mem_cons_of_mem _ h)

/-- Putting the separator back between the pieces gives the sequence back. -/
theorem splitRunes_intercalate (sep : Char) (l : List Char) :
    List.intercalate [sep] (splitRunes sep l) = l := by
  induction l with
  | nil => simp [splitRunes, List.intercalate]
  | cons c cs ih =>
    simp only [splitRunes]
    cases hs : splitRunes sep cs with
    | nil => exact absurd hs (splitRunes_ne_nil sep cs)
    | cons v vs =>
      rw [hs] at ih
      by_cases hc : c = sep
      · rw [if_pos hc]
        simp only [List.intercalate, List.intersperse, List.flatten] at ih ⊢
        rw [ih, hc]
        rfl
      · rw [if_neg hc]
        cases vs with
        | nil =>
          simp only [List.intercalate, List.intersperse, List.flatten] at ih ⊢
          simp only [List.append_nil] at ih ⊢
          rw [ih]
        | cons u us =>
          simp only [List.intercalate, List.intersperse, List.flatten] at ih ⊢
          rw [List.cons_append, ih]

theorem appendIfKnown_eq (cs : List Component) (validSelections : List String)
    (name : String) :
    appendIfKnown cs validSelections name
      = if name ∈ componentNames cs then validSelections ++ [name] else validSelections := by
  induction cs with
  | nil => simp [appendIfKnown, componentNames]
  | cons c cs ih =>
    simp only [appendIfKnown, componentNames, List.map_cons, List.mem_cons]
    by_cases h : c.Name = name
    · rw [if_pos h, if_pos (Or.inl h.symm)]
    · rw [if_neg h, ih]
      have hne : ¬ name = c.Name := fun h' => h h'.symm
      simp only [componentNames, hne, false_or]

theorem foldl_allNames (cs : List Component) (acc : List String) :
    cs.foldl (fun allNames comp => allNames ++ [comp.Name]) acc = acc ++ componentNames cs := by
  induction cs generalizing acc with
  | nil => simp [componentNames]
  | cons c cs ih =>
    rw [List.foldl_cons, ih]
    simp [componentNames]

theorem foldl_validSelections (isSpace : Char → Bool) (cs : List Component)
    (names : List String) (acc : List String) :
    names.foldl
        (fun validSelections name =>
          if strings.TrimSpace isSpace name = "" then validSelections
          else appendIfKnown cs validSelections (strings.TrimSpace isSpace name))
        acc
      = acc ++ (names.map (strings.TrimSpace isSpace)).filter
          (fun n => decide (n ≠ "") && decide (n ∈ componentNames cs)) := by
  induction names generalizing acc with
  | nil => simp
  | cons n ns ih =>
    rw [List.foldl_cons, ih, List.map_cons, List.filter_cons]
    by_cases h1 : strings.TrimSpace isSpace n = ""
    · simp [h1]
    · rw [if_neg h1, appendIfKnown_eq]
      by_cases h2 : strings.TrimSpace isSpace n ∈ componentNames cs
      · simp [h1, h2]
      · simp [h1, h2]

/-! ## The menu of `selectComponents` -/

theorem foldl_append_if {α : Type} (p : α → Bool) (l : List α) (acc : List α) :
    l.foldl (fun acc x => if p x then acc ++ [x] else acc) acc = acc ++ l.filter p := by
  induction l generalizing acc with
  | nil => simp
  | cons x xs ih =>
    rw [List.foldl_cons, ih, List.filter_cons]
    by_cases h : p x = true
    · simp [h]
    · simp [h]

/-- The categories shown are those of `categoryOrder`, in that order, whose group is
not empty. -/
theorem validCategoriesOf_eq_filter (m : GoMap (List Component)) :
    validCategoriesOf m = categoryOrder.filter (fun cat => decide ((m.get cat).length > 0)) := by
  have h := foldl_append_if (fun cat => decide ((m.get cat).length > 0)) categoryOrder []
  simp only [List.nil_append, decide_eq_true_eq] at h
  exact h

theorem goIndex_lt {α : Type} {xs : List α} {i : Int} {x : α} (h : goIndex xs i = some x) :
    0 ≤ i ∧ i < (xs.length : Int) := by
  unfold goIndex at h
  by_cases h0 : 0 ≤ i
  · rw [if_pos h0] at h
    have hlt : i.toNat < xs.length := by
      by_contra hge
      rw [List.get?_eq_none.mpr (by omega)] at h
      cases h
    exact ⟨h0, by omega⟩
  · rw [if_neg h0] at h
    cases h

/-- A press of the space bar in component-list mode, when a component is
highlighted. -/
theorem menuPass_space (componentsByCategory : GoMap (List Component))
    (validCategories : List String) (st : MenuState) (comp : Component) (buf0 buf1 : Nat)
    (hmode : st.currentCategory ≠ "")
    (hcur : goIndex (componentsByCategory.get st.currentCategory) st.componentIndex
      = some comp) :
    menuPass componentsByCategory validCategories st (TermInput.key ' ' buf0 buf1)
      = LoopPass.next
          { st with
            selectedSet := st.selectedSet.insert comp.Name (!st.selectedSet.get comp.Name) } := by
  have hlt := (goIndex_lt hcur).2
  simp only [menuPass, if_neg hmode, componentPass]
  rw [if_neg (by decide), if_pos trivial, if_pos hlt, hcur]

/-- A press of Enter in the main menu returns the keys of `selectedSet`. -/
theorem menuPass_enter_main (componentsByCategory : GoMap (List Component))
    (validCategories : List String) (st : MenuState) (buf0 buf1 : Nat)
    (hmode : st.currentCategory = "") :
    menuPass componentsByCategory validCategories st (TermInput.key '\r' buf0 buf1)
      = LoopPass.ret (some st.selectedSet.keys) none := by
  simp only [menuPass, if_pos hmode, categoryPass]
  rw [if_neg (by decide), if_pos (Or.inr trivial)]

/-- Every name whose flag is true is a key of `selectedSet`. -/
theorem mem_keys_of_flag (st : MenuState) (n : String) (h : st.selectedSet.get n = true) :
    n ∈ st.selectedSet.keys :=
  AList.mem_keys.mp (GoMap.mem_of_get_true _ _ h)

/-! ## Claims about the selection -/

/-- C14, evaluated where the code departs from it: in the catalog with the one
component `wifi`, the keys `→`, space, space, Enter lead back to the main menu with
the flag of `wifi` false, and the Enter pressed there returns `wifi`. -/
theorem selectComponents_returns_deselected :
    selectComponents Char.isWhitespace true "linux" oneWifiCatalog
        { keys := [keyRight, keySpace, keySpace, keyEnter] }
      = SelectOutcome.waiting
          { currentCategory := "", selectedIndex := 0, componentIndex := 0,
            selectedSet := AList.singleton "wifi" false } ∧
    GoMap.get (AList.singleton "wifi" false : GoMap Bool) "wifi" = false ∧
    selectComponents Char.isWhitespace true "linux" oneWifiCatalog
        { keys := [keyRight, keySpace, keySpace, keyEnter, keyEnter] }
      = SelectOutcome.returned (some ["wifi"]) none :=
  ⟨rfl, rfl, rfl⟩

/-- What the space bar does to the flags: in component-list mode with a
highlighted component, a press inverts the flag `selectedSet[comp.Name]` and leaves
the flag of every other name, the mode and both cursors as they were; after a second
press every flag reads as before the first.  The map `selectedSet` itself is not
brought back: see `selectComponents_toggle_twice`. -/
theorem menuPass_toggle_flags (componentsByCategory : GoMap (List Component))
    (validCategories : List String) (st : MenuState) (comp : Component)
    (buf0 buf1 buf0' buf1' : Nat)
    (hmode : st.currentCategory ≠ "")
    (hcur : goIndex (componentsByCategory.get st.currentCategory) st.componentIndex
      = some comp) :
    ∃ st₁ st₂,
      menuPass componentsByCategory validCategories st (TermInput.key ' ' buf0 buf1)
        = LoopPass.next st₁ ∧
      menuPass componentsByCategory validCategories st₁ (TermInput.key ' ' buf0' buf1')
        = LoopPass.next st₂ ∧
      st₁.selectedSet.get comp.Name = !st.selectedSet.get comp.Name ∧
      (∀ n, n ≠ comp.Name → st₁.selectedSet.get n = st.selectedSet.get n) ∧
      st₁.currentCategory = st.currentCategory ∧
      st₁.selectedIndex = st.selectedIndex ∧
      st₁.componentIndex = st.componentIndex ∧
      (∀ n, st₂.selectedSet.get n = st.selectedSet.get n) ∧
      st₂.currentCategory = st.currentCategory ∧
      st₂.selectedIndex = st.selectedIndex ∧
      st₂.componentIndex = st.componentIndex := by
  have h₁ := menuPass_space componentsByCategory validCategories st comp buf0 buf1 hmode hcur
  have h₂ := menuPass_space componentsByCategory validCategories
    { st with selectedSet := st.selectedSet.insert comp.Name (!st.selectedSet.get comp.Name) }
    comp buf0' buf1' hmode hcur
  refine ⟨_, _, h₁, h₂, ?_, ?_, rfl, rfl, rfl, ?_, rfl, rfl, rfl⟩
  · simp only [GoMap.get_insert, if_true]
  · intro n hn
    simp only [GoMap.get_insert, if_neg hn]
  · intro n
    simp only [GoMap.get_insert]
    by_cases hn : n = comp.Name
    · simp [hn]
    · simp [hn]

/-- C15, evaluated where the code departs from it: in the catalog with the one
component `wifi`, after `→` the map `selectedSet` is empty; after `→`, space, space it
holds the key `wifi` with the value false, so the two presses have not restored it;
and the difference shows: from the first state Enter, Enter returns no name, from
the second Enter, Enter returns `wifi`. -/
theorem selectComponents_toggle_twice :
    selectComponents Char.isWhitespace true "linux" oneWifiCatalog { keys := [keyRight] }
      = SelectOutcome.waiting
          { currentCategory := "network", selectedIndex := 0, componentIndex := 0,
            selectedSet := ∅ } ∧
    selectComponents Char.isWhitespace true "linux" oneWifiCatalog
        { keys := [keyRight, keySpace, keySpace] }
      = SelectOutcome.waiting
          { currentCategory := "network", selectedIndex := 0, componentIndex := 0,
            selectedSet := AList.singleton "wifi" false } ∧
    (AList.singleton "wifi" false : GoMap Bool).keys ≠ (∅ : GoMap Bool).keys ∧
    selectComponents Char.isWhitespace true "linux" oneWifiCatalog
        { keys := [keyRight, keyEnter, keyEnter] }
      = SelectOutcome.returned (some []) none ∧
    selectComponents Char.isWhitespace true "linux" oneWifiCatalog
        { keys := [keyRight, keySpace, keySpace, keyEnter, keyEnter] }
      = SelectOutcome.returned (some ["wifi"]) none :=
  ⟨rfl, rfl, by decide, rfl, rfl⟩

/-- C16, evaluated where the code departs from it: the one component of the catalog
has the category `radio`, which is not in `categoryOrder`; no category is shown, the
group `other` is empty, and the component stands in the group `radio`. -/
theorem validCategoriesOf_unrecognized :
    validCategoriesOf (groupByCategory customCategoryCatalog) = [] ∧
      (groupByCategory customCategoryCatalog).get "other" = [] ∧
      (groupByCategory customCategoryCatalog).get "radio" = customCategoryCatalog ∧
      selectComponents Char.isWhitespace true "linux" customCategoryCatalog
          { keys := [keyRight, keySpace, keyEnter] }
        = SelectOutcome.returned (some []) none :=
  ⟨rfl, rfl, rfl, rfl⟩

/-- C17 (line mode): once a line has been read, `selectComponentsWindows` returns no
error; a line that is empty after trimming gives the empty selection, the line `all`
every name of the catalog in catalog order, and any other line the tokens between
its commas that, once trimmed, are non-empty and are the name of a component of the
catalog, in the order of the line. -/
theorem selectComponentsWindows_line :
    (∀ (isSpace : Char → Bool) (allComponents : List Component) (line : String),
      selectComponentsWindows isSpace allComponents (line, none)
        = (some
            (if strings.TrimSpace isSpace line = "" then []
             else if strings.TrimSpace isSpace line = "all" then componentNames allComponents
             else
              ((strings.Split (strings.TrimSpace isSpace line) ',').map
                  (strings.TrimSpace isSpace)).filter
                (fun n => decide (n ≠ "") && decide (n ∈ componentNames allComponents))),
          none)) ∧
      selectComponentsWindows Char.isWhitespace testCatalog (" wifi, nosuch ,, mqtt \n", none)
        = (some ["wifi", "mqtt"], none) ∧
      selectComponentsWindows Char.isWhitespace testCatalog (" all\r\n", none)
        = (some ["wifi", "mqtt", "http", "ble"], none) ∧
      selectComponentsWindows Char.isWhitespace testCatalog ("  \n", none)
        = (some [], none) := by
  refine ⟨?_, by decide, by decide, by decide⟩
  intro isSpace allComponents line
  simp only [selectComponentsWindows]
  by_cases h1 : strings.TrimSpace isSpace line = ""
  · simp [h1]
  · by_cases h2 : strings.TrimSpace isSpace line = "all"
    · rw [if_neg h1, if_pos h2, if_neg h1, if_pos h2, foldl_allNames]
      simp
    · rw [if_neg h1, if_neg h2, if_neg h1, if_neg h2, foldl_validSelections]
      simp

/-- C18 (non-interactive mode): with the flag `interactive` false, `selectComponents`
returns the empty list and no error, for every catalog and whatever the terminal
would deliver. -/
theorem selectComponents_non_interactive (isSpace : Char → Bool) (goos : String)
    (allComponents : List Component) (terminal : Terminal) :
    selectComponents isSpace false goos allComponents terminal
      = SelectOutcome.returned (some []) none := by
  simp [selectComponents]

/-! ## The target directory -/

/-- On a directory that exists, `os.MkdirAll` succeeds and changes nothing. -/
theorem MkdirAll_existing (paths : PathOps) (fs : FileSystem) (path : String)
    (h : path ∈ fs.dirs) : os.MkdirAll paths fs path = (fs, none) := by
  simp [os.MkdirAll, h]

/-- Counterexample to C20 as stated: the target directory `out` exists, and
`GenerateProject` returns no error and has made the directory `out/demo`. -/
theorem GenerateProject_existing_counterexample :
    os.Stat slashPaths diskWithOut "out" = none ∧
      GenerateProject slashPaths idleStage Char.toLower ⟨"/sdk"⟩ "demo" "out" [] diskWithOut
        = ({ dirs := ["out", "out/demo"], files := [] }, none) := by
  refine ⟨by decide, by decide⟩

/-- C20, amended (path conflict): when the target directory
`filepath.Join(projectPath, projectName)` exists, every return of `runNew` carries an
error and leaves the disk as it was; and when the name is valid, the SDK path is
found and valid, the catalog is loaded, the selection returns and its dependencies
resolve, `runNew` returns the error `项目目录已存在` without calling
`GenerateProject`. -/
theorem runNew_path_conflict (env : RunEnv) (projectName : String) (fs : FileSystem)
    (hexists : os.Stat env.paths fs (env.paths.join env.projectPath projectName) = none) :
    (∀ fs' err, runNew env projectName fs = RunOutcome.returned fs' err →
        fs' = fs ∧ err ≠ none) ∧
      ∀ (sdkPath : String) (components : List Component)
        (selected : Option (List String)) (resolved : Option (List Component)),
        isValidProjectName projectName = true →
        env.getSDKPath = (sdkPath, none) →
        isValidSDKPath env.paths fs sdkPath = true →
        env.loadComponents = (components, none) →
        selectComponents env.isSpace env.interactive env.goos components env.terminal
          = SelectOutcome.returned selected none →
        resolveDependencies components (selected.getD []) = some (resolved, none) →
        runNew env projectName fs
          = RunOutcome.returned fs
              (some ("项目目录已存在: " ++ env.paths.join env.projectPath projectName)) := by
  constructor
  · intro fs' err h
    unfold runNew at h
    split at h
    · simp only [RunOutcome.returned.injEq] at h
      exact ⟨h.1.symm, by rw [← h.2]; simp⟩
    · split at h
      · simp only [RunOutcome.returned.injEq] at h
        exact ⟨h.1.symm, by rw [← h.2]; simp⟩
      · split at h
        · simp only [RunOutcome.returned.injEq] at h
          exact ⟨h.1.symm, by rw [← h.2]; simp⟩
        · split at h
          · simp only [RunOutcome.returned.injEq] at h
            exact ⟨h.1.symm, by rw [← h.2]; simp⟩
          · split at h
            · cases h
            · cases h
            · simp only [RunOutcome.returned.injEq] at h
              exact ⟨h.1.symm, by rw [← h.2]; simp⟩
            · split at h
              · cases h
              · simp only [RunOutcome.returned.injEq] at h
                exact ⟨h.1.symm, by rw [← h.2]; simp⟩
              · simp only [RunOutcome.returned.injEq] at h
                exact ⟨h.1.symm, by rw [← h.2]; simp⟩
  · intro sdkPath components selected resolved hname hsdk hvalid hload hsel hres
    unfold runNew
    simp only [hname, hsdk, hvalid, hload, hsel, hres, hexists, Bool.not_true, if_true]
    simp

/-- Witness of the amended C20: a non-interactive run for the project `demo` with
`--path out` on a disk where `out/demo` exists; and the same with an SDK path that
is a regular file, under which every `os.Stat` fails with an error other than
`not exist`, so that `isValidSDKPath` lets it pass. -/
theorem runNew_path_conflict_witness :
    os.Stat quietEnv.paths diskWithDemo (quietEnv.paths.join quietEnv.projectPath "demo")
        = none ∧
      runNew quietEnv "demo" diskWithDemo
        = RunOutcome.returned diskWithDemo (some "项目目录已存在: out/demo") ∧
      os.Stat slashPaths diskWithPlainFile "plainfile/components" = some StatErr.other ∧
      isValidSDKPath slashPaths diskWithPlainFile "plainfile" = true ∧
      runNew plainFileEnv "demo" diskWithPlainFile
        = RunOutcome.returned diskWithPlainFile (some "项目目录已存在: out/demo") :=
  ⟨by decide,
    (runNew_path_conflict quietEnv "demo" diskWithDemo (by decide)).2 "/sdk" testCatalog
      (some []) (some []) (by decide) rfl (by decide) rfl rfl rfl,
    by decide, by decide,
    (runNew_path_conflict plainFileEnv "demo" diskWithPlainFile (by decide)).2 "plainfile"
      testCatalog (some []) (some []) (by decide) rfl (by decide) rfl rfl rfl⟩

/-! ## Permuted component lists -/

theorem any_eq_of_perm {α : Type} (p : α → Bool) {l₁ l₂ : List α} (h : l₁.Perm l₂) :
    l₁.any p = l₂.any p := by
  rw [Bool.eq_iff_iff, List.any_eq_true, List.any_eq_true]
  constructor
  · rintro ⟨x, hx, hp⟩
    exact ⟨x, h.mem_iff.mp hx, hp⟩
  · rintro ⟨x, hx, hp⟩
    exact ⟨x, h.mem_iff.mpr hx, hp⟩

/-- A field of the record that the loop body only ever sets to `true`, under a
condition on the component, is after the loop the disjunction of its former value
and of the condition over the components. -/
theorem foldl_processComponent_flag (toLowerRune : Char → Char) (field : ProjectData → Bool)
    (p : Component → Bool)
    (h : ∀ d c, field (processComponent toLowerRune d c) = (p c || field d))
    (cs : List Component) :
    ∀ d, field (cs.foldl (processComponent toLowerRune) d) = (field d || cs.any p) := by
  induction cs with
  | nil => intro d; simp
  | cons c cs ih =>
    intro d
    rw [List.foldl_cons, ih, h, List.any_cons]
    cases p c <;> cases field d <;> simp

theorem ite_true_eq_or (b x : Bool) : (if b = true then true else x) = (b || x) := by
  cases b <;> simp

theorem capabilityFlags_stages (F : ProjectData) :
    capabilityFlags (dedupLists (applyMQTT (applySmartconfig (applyWifi F))))
      = capabilityFlags F := by
  cases hw : F.HasWifi <;> cases hs : F.HasSmartconfig <;> cases hm : F.HasMQTT <;>
    simp [capabilityFlags, dedupLists, applyMQTT, applySmartconfig, applyWifi, hw, hs, hm]

/-- The capability flags do not depend on the order of the components. -/
theorem capabilityFlags_perm (toLowerRune : Char → Char) (g₁ g₂ : Generator)
    (name₁ name₂ : String) {cs₁ cs₂ : List Component} (h : cs₁.Perm cs₂) :
    capabilityFlags (prepareProjectData toLowerRune g₁ name₁ cs₁)
      = capabilityFlags (prepareProjectData toLowerRune g₂ name₂ cs₂) := by
  have key : ∀ (field : ProjectData → Bool) (p : Component → Bool),
      (∀ d c, field (processComponent toLowerRune d c) = (p c || field d)) →
      field (seedProjectData g₁ name₁ cs₁) = field (seedProjectData g₂ name₂ cs₂) →
      field (cs₁.foldl (processComponent toLowerRune) (seedProjectData g₁ name₁ cs₁))
        = field (cs₂.foldl (processComponent toLowerRune) (seedProjectData g₂ name₂ cs₂)) := by
    intro field p hstep hseed
    rw [foldl_processComponent_flag toLowerRune field p hstep,
      foldl_processComponent_flag toLowerRune field p hstep, hseed, any_eq_of_perm p h]
  unfold prepareProjectData
  rw [capabilityFlags_stages, capabilityFlags_stages]
  unfold capabilityFlags
  congr 1
  · exact key (fun d => d.HasWifi) _ (fun d c => ite_true_eq_or _ _) rfl
  congr 1
  · exact key (fun d => d.HasMQTT) _ (fun d c => ite_true_eq_or _ _) rfl
  congr 1
  · exact key (fun d => d.HasBLE) _ (fun d c => ite_true_eq_or _ _) rfl
  congr 1
  · exact key (fun d => d.HasHTTP) _ (fun d c => ite_true_eq_or _ _) rfl
  congr 1
  · exact key (fun d => d.HasStorage) _ (fun d c => ite_true_eq_or _ _) rfl
  congr 1
  · exact key (fun d => ProjectData.HasGPIO d) _ (fun d c => ite_true_eq_or _ _) rfl
  congr 1
  · exact key (fun d => d.HasUART) _ (fun d c => ite_true_eq_or _ _) rfl
  congr 1
  · exact key (fun d => d.HasI2C) _ (fun d c => ite_true_eq_or _ _) rfl
  congr 1
  · exact key (fun d => d.HasSPI) _ (fun d c => ite_true_eq_or _ _) rfl
  congr 1
  · exact key (fun d => d.HasPWM) _ (fun d c => ite_true_eq_or _ _) rfl
  congr 1
  · exact key (fun d => d.HasADC) _ (fun d c => ite_true_eq_or _ _) rfl
  congr 1
  · exact key (fun d => d.HasTimer) _ (fun d c => ite_true_eq_or _ _) rfl
  congr 1
  · exact key (fun d => d.HasSmartconfig) _ (fun d c => ite_true_eq_or _ _) rfl
  congr 1
  · exact key (fun d => d.HasBlufi) _ (fun d c => ite_true_eq_or _ _) rfl
  congr 1
  · exact key (fun d => d.HasHTTPS) _ (fun d c => ite_true_eq_or _ _) rfl
  congr 1
  · exact key (fun d => d.HasLWIPTLS) _ (fun d c => ite_true_eq_or _ _) rfl

theorem lookup_foldl_merge_agree (k v : String) (cs : List Component)
    (hall : ∀ c ∈ cs, ∀ v', c.ConfigFlags.lookup k = some v' → v' = v)
    (hex : ∃ c ∈ cs, c.ConfigFlags.lookup k = some v) :
    ∀ m : GoMap String,
      (cs.foldl (fun m c => mergeConfigFlags m c.ConfigFlags) m).lookup k = some v := by
  induction cs with
  | nil =>
    obtain ⟨c, hc, _⟩ := hex
    cases hc
  | cons c cs ih =>
    intro m
    rw [List.foldl_cons]
    by_cases hrest : ∃ c' ∈ cs, c'.ConfigFlags.lookup k = some v
    · exact ih (fun c' hc' => hall c' (List.mem_cons_of_mem _ hc')) hrest _
    · have hnone : ∀ c' ∈ cs, c'.ConfigFlags.lookup k = none := by
        intro c' hc'
        cases hl : c'.ConfigFlags.lookup k with
        | none => rfl
        | some v' =>
          have := hall c' (List.mem_cons_of_mem _ hc') v' hl
          subst this
          exact absurd ⟨c', hc', hl⟩ hrest
      have hc : c.ConfigFlags.lookup k = some v := by
        obtain ⟨c₀, hc₀, hl⟩ := hex
        rcases List.mem_cons.mp hc₀ with h | h
        · subst h; exact hl
        · exact absurd ⟨c₀, h, hl⟩ hrest
      rw [lookup_foldl_merge_none cs k hnone, lookup_mergeConfigFlags, hc]

/-- When the components that set a key agree on its value, the merged flag map does
not depend on the order of the components. -/
theorem lookup_foldl_merge_perm {cs₁ cs₂ : List Component} (h : cs₁.Perm cs₂)
    (hagree : ∀ c ∈ cs₁, ∀ c' ∈ cs₁, ∀ k v v',
      c.ConfigFlags.lookup k = some v → c'.ConfigFlags.lookup k = some v' → v = v')
    (k : String) :
    (cs₁.foldl (fun m c => mergeConfigFlags m c.ConfigFlags) (∅ : GoMap String)).lookup k
      = (cs₂.foldl (fun m c => mergeConfigFlags m c.ConfigFlags) (∅ : GoMap String)).lookup k := by
  by_cases hex : ∃ c ∈ cs₁, ∃ v, c.ConfigFlags.lookup k = some v
  · obtain ⟨c, hc, v, hv⟩ := hex
    have hall₁ : ∀ c' ∈ cs₁, ∀ v', c'.ConfigFlags.lookup k = some v' → v' = v :=
      fun c' hc' v' hv' => hagree c' hc' c hc k v' v hv' hv
    have hall₂ : ∀ c' ∈ cs₂, ∀ v', c'.ConfigFlags.lookup k = some v' → v' = v :=
      fun c' hc' v' hv' => hall₁ c' (h.mem_iff.mpr hc') v' hv'
    rw [lookup_foldl_merge_agree k v cs₁ hall₁ ⟨c, hc, hv⟩,
      lookup_foldl_merge_agree k v cs₂ hall₂ ⟨c, h.mem_iff.mp hc, hv⟩]
  · have hnone₁ : ∀ c ∈ cs₁, c.ConfigFlags.lookup k = none := by
      intro c hc
      cases hl : c.ConfigFlags.lookup k with
      | none => rfl
      | some v => exact absurd ⟨c, hc, v, hl⟩ hex
    have hnone₂ : ∀ c ∈ cs₂, c.ConfigFlags.lookup k = none :=
      fun c hc => hnone₁ c (h.mem_iff.mpr hc)
    rw [lookup_foldl_merge_none cs₁ k hnone₁, lookup_foldl_merge_none cs₂ k hnone₂]

theorem mem_flatMap_perm {cs₁ cs₂ : List Component} (h : cs₁.Perm cs₂)
    (f : Component → List String) (t : String) :
    t ∈ cs₁.flatMap f ↔ t ∈ cs₂.flatMap f := by
  simp only [List.mem_flatMap]
  constructor
  · rintro ⟨c, hc, ht⟩
    exact ⟨c, h.mem_iff.mp hc, ht⟩
  · rintro ⟨c, hc, ht⟩
    exact ⟨c, h.mem_iff.mpr hc, ht⟩

/-! ## Claims about empty tokens and the order of the components -/

/-- C22 (empty tokens are removed): a string is in `uniqueStrings xs` exactly when
it is in `xs` and is not empty, and so the empty string is in none of the five
lists of the result of `prepareProjectData`. -/
theorem uniqueStrings_members :
    (∀ (xs : List String) (a : String), a ∈ uniqueStrings xs ↔ a ∈ xs ∧ a ≠ "") ∧
      ∀ (toLowerRune : Char → Char) (g : Generator) (projectName : String)
        (components : List Component),
        "" ∉ (prepareProjectData toLowerRune g projectName components).IncludeComps ∧
        "" ∉ (prepareProjectData toLowerRune g projectName components).NetworkComps ∧
        "" ∉ (prepareProjectData toLowerRune g projectName components).BLSysComps ∧
        "" ∉ (prepareProjectData toLowerRune g projectName components).VFSComps ∧
        "" ∉ (prepareProjectData toLowerRune g projectName components).MQTTComps := by
  refine ⟨mem_uniqueStrings, ?_⟩
  intro toLowerRune g projectName components
  obtain ⟨_, _, _, h1, h2, h3, h4, h5, _⟩ :=
    prepareProjectData_fields toLowerRune g projectName components
  have hno : ∀ l : List String, "" ∉ uniqueStrings l :=
    fun l h => ((mem_uniqueStrings l "").mp h).2 rfl
  rw [h1, h2, h3, h4, h5]
  exact ⟨hno _, hno _, hno _, hno _, hno _⟩

/-- C23 (the order of the components): for two component lists that are
permutations of each other, `prepareProjectData` gives the same capability flags
and, in each of the five lists, the same tokens; and when no two components set
the same key to different values, it gives the same flag map. -/
theorem prepareProjectData_perm (toLowerRune : Char → Char) (g : Generator)
    (projectName : String) (cs₁ cs₂ : List Component) (h : cs₁.Perm cs₂) :
    capabilityFlags (prepareProjectData toLowerRune g projectName cs₁)
        = capabilityFlags (prepareProjectData toLowerRune g projectName cs₂) ∧
      (∀ t, t ∈ (prepareProjectData toLowerRune g projectName cs₁).IncludeComps ↔
        t ∈ (prepareProjectData toLowerRune g projectName cs₂).IncludeComps) ∧
      (∀ t, t ∈ (prepareProjectData toLowerRune g projectName cs₁).NetworkComps ↔
        t ∈ (prepareProjectData toLowerRune g projectName cs₂).NetworkComps) ∧
      (∀ t, t ∈ (prepareProjectData toLowerRune g projectName cs₁).BLSysComps ↔
        t ∈ (prepareProjectData toLowerRune g projectName cs₂).BLSysComps) ∧
      (∀ t, t ∈ (prepareProjectData toLowerRune g projectName cs₁).VFSComps ↔
        t ∈ (prepareProjectData toLowerRune g projectName cs₂).VFSComps) ∧
      (∀ t, t ∈ (prepareProjectData toLowerRune g projectName cs₁).MQTTComps ↔
        t ∈ (prepareProjectData toLowerRune g projectName cs₂).MQTTComps) ∧
      ((∀ c ∈ cs₁, ∀ c' ∈ cs₁, ∀ k v v',
          c.ConfigFlags.lookup k = some v → c'.ConfigFlags.lookup k = some v' → v = v') →
        ∀ k, (prepareProjectData toLowerRune g projectName cs₁).ConfigFlags.lookup k
          = (prepareProjectData toLowerRune g projectName cs₂).ConfigFlags.lookup k) := by
  have hflags := capabilityFlags_perm toLowerRune g g projectName projectName h
  have hw : (prepareProjectData toLowerRune g projectName cs₁).HasWifi
      = (prepareProjectData toLowerRune g projectName cs₂).HasWifi := by
    have := congrArg (fun l => l.get? 0) hflags
    simpa [capabilityFlags] using this
  have hm : (prepareProjectData toLowerRune g projectName cs₁).HasMQTT
      = (prepareProjectData toLowerRune g projectName cs₂).HasMQTT := by
    have := congrArg (fun l => l.get? 1) hflags
    simpa [capabilityFlags] using this
  have hs : (prepareProjectData toLowerRune g projectName cs₁).HasSmartconfig
      = (prepareProjectData toLowerRune g projectName cs₂).HasSmartconfig := by
    have := congrArg (fun l => l.get? 12) hflags
    simpa [capabilityFlags] using this
  obtain ⟨_, _, _, a1, a2, a3, a4, a5, a6⟩ :=
    prepareProjectData_fields toLowerRune g projectName cs₁
  obtain ⟨_, _, _, b1, b2, b3, b4, b5, b6⟩ :=
    prepareProjectData_fields toLowerRune g projectName cs₂
  refine ⟨hflags, ?_, ?_, ?_, ?_, ?_, ?_⟩
  · intro t
    rw [a1, b1, hw, hm, hs]
    simp only [mem_uniqueStrings, List.mem_append,
      mem_flatMap_perm h (fun c => c.IncludeComponents) t]
  · intro t
    rw [a2, b2, hw]
    simp only [mem_uniqueStrings, List.mem_append,
      mem_flatMap_perm h (fun c => c.NetworkComponents) t]
  · intro t
    rw [a3, b3, hw]
    simp only [mem_uniqueStrings, List.mem_append,
      mem_flatMap_perm h (fun c => c.BLSysComponents) t]
  · intro t
    rw [a4, b4]
    simp only [mem_uniqueStrings, List.mem_append,
      mem_flatMap_perm h (fun c => c.VFSComponents) t]
  · intro t
    rw [a5, b5]
    simp only [mem_uniqueStrings, mem_flatMap_perm h (fun c => c.MQTTComponents) t]
  · intro hagree k
    rw [a6, b6, hw]
    have hl := lookup_foldl_merge_perm h hagree k
    cases (prepareProjectData toLowerRune g projectName cs₂).HasWifi with
    | false => simpa using hl
    | true =>
      simp only [if_true]
      by_cases hk : k = "CONFIG_WIFI"
      · subst hk
        rw [AList.lookup_insert, AList.lookup_insert]
      · rw [AList.lookup_insert_ne hk, AList.lookup_insert_ne hk]
        exact hl

theorem testComponents_agree :
    ∀ c ∈ testComponents, ∀ c' ∈ testComponents, ∀ k v v',
      c.ConfigFlags.lookup k = some v → c'.ConfigFlags.lookup k = some v' → v = v' := by
  intro c hc c' hc' k v v' hv hv'
  simp only [testComponents, List.mem_cons, List.mem_singleton, List.not_mem_nil,
    or_false] at hc hc'
  rcases hc with rfl | rfl <;> rcases hc' with rfl | rfl
  · rw [hv] at hv'
    exact Option.some.inj hv'
  · simp at hv'
  · simp at hv
  · simp at hv

/-- Witness of C23: the two components of `TestPrepareProjectData` in either
order. -/
theorem prepareProjectData_perm_witness :
    testComponents.Perm testComponentsSwapped ∧
      (∀ t, t ∈ (prepareProjectData Char.toLower ⟨"/sdk"⟩ "demo" testComponents).IncludeComps ↔
        t ∈ (prepareProjectData Char.toLower ⟨"/sdk"⟩ "demo"
          testComponentsSwapped).IncludeComps) ∧
      ∀ k, (prepareProjectData Char.toLower ⟨"/sdk"⟩ "demo" testComponents).ConfigFlags.lookup k
        = (prepareProjectData Char.toLower ⟨"/sdk"⟩ "demo"
            testComponentsSwapped).ConfigFlags.lookup k :=
  ⟨List.Perm.swap _ _ _,
    (prepareProjectData_perm Char.toLower ⟨"/sdk"⟩ "demo" testComponents testComponentsSwapped
      (List.Perm.swap _ _ _)).2.1,
    (prepareProjectData_perm Char.toLower ⟨"/sdk"⟩ "demo" testComponents testComponentsSwapped
      (List.Perm.swap _ _ _)).2.2.2.2.2.2 testComponents_agree⟩

/-! ## The cursors of the menu -/

theorem validCategoriesOf_nonempty (m : GoMap (List Component)) :
    ∀ cat ∈ validCategoriesOf m, 0 < (m.get cat).length := by
  intro cat hcat
  rw [validCategoriesOf_eq_filter, List.mem_filter] at hcat
  simpa using hcat.2

theorem goIndex_of_range {α : Type} (xs : List α) (i : Int) (h0 : 0 ≤ i)
    (h1 : i < (xs.length : Int)) : ∃ x, goIndex xs i = some x ∧ x ∈ xs := by
  have hlt : i.toNat < xs.length := by omega
  refine ⟨xs.get ⟨i.toNat, hlt⟩, ?_, List.get_mem _ _ _⟩
  unfold goIndex
  rw [if_pos h0, List.get?_eq_get hlt]

theorem categoryPass_inv (componentsByCategory : GoMap (List Component))
    (validCategories : List String)
    (hvc : ∀ cat ∈ validCategories, 0 < (componentsByCategory.get cat).length)
    (st : MenuState) (char : Char) (buf0 buf1 : Nat) (hmode : st.currentCategory = "")
    (inv : CursorsInRange componentsByCategory validCategories st) :
    (∀ st', categoryPass validCategories st char buf0 buf1 = LoopPass.next st' →
        CursorsInRange componentsByCategory validCategories st') ∧
      categoryPass validCategories st char buf0 buf1 ≠ LoopPass.indexPanic := by
  obtain ⟨h0, h1, h2⟩ := inv
  unfold categoryPass
  by_cases hesc : char.toNat = 27
  · rw [if_pos hesc]
    by_cases hb : buf0 = 91
    · rw [if_pos hb]
      by_cases hA : buf1 = 65
      · rw [if_pos hA]
        refine ⟨?_, by simp⟩
        intro st' hst
        simp only [LoopPass.next.injEq] at hst
        subst hst
        split_ifs with hpos
        · refine ⟨?_, ?_, ?_⟩
          · simp only; omega
          · simp only; left; rcases h1 with h | ⟨_, h⟩ <;> omega
          · intro hne; exact absurd hmode hne
        · exact ⟨h0, h1, h2⟩
      · rw [if_neg hA]
        by_cases hB : buf1 = 66
        · rw [if_pos hB]
          refine ⟨?_, by simp⟩
          intro st' hst
          simp only [LoopPass.next.injEq] at hst
          subst hst
          split_ifs with hlt
          · refine ⟨?_, ?_, ?_⟩
            · simp only; omega
            · simp only; left; omega
            · intro hne; exact absurd hmode hne
          · exact ⟨h0, h1, h2⟩
        · rw [if_neg hB]
          by_cases hC : buf1 = 67
          · rw [if_pos hC]
            by_cases hlt : st.selectedIndex < (validCategories.length : Int)
            · rw [if_pos hlt]
              obtain ⟨cat, hcat, hmem⟩ := goIndex_of_range validCategories _ h0 hlt
              rw [hcat]
              refine ⟨?_, by simp⟩
              intro st' hst
              simp only [LoopPass.next.injEq] at hst
              subst hst
              refine ⟨h0, h1, ?_⟩
              intro _
              have := hvc cat hmem
              simp only
              omega
            · rw [if_neg hlt]
              refine ⟨?_, by simp⟩
              intro st' hst
              simp only [LoopPass.next.injEq] at hst
              subst hst
              exact ⟨h0, h1, h2⟩
          · rw [if_neg hC]
            refine ⟨?_, by simp⟩
            intro st' hst
            simp only [LoopPass.next.injEq] at hst
            subst hst
            exact ⟨h0, h1, h2⟩
    · rw [if_neg hb]
      refine ⟨?_, by simp⟩
      intro st' hst
      simp only [LoopPass.next.injEq] at hst
      subst hst
      exact ⟨h0, h1, h2⟩
  · rw [if_neg hesc]
    split_ifs
    · exact ⟨fun st' hst => (by cases hst), by simp⟩
    · exact ⟨fun st' hst => (by cases hst), by simp⟩
    · refine ⟨?_, by simp⟩
      intro st' hst
      simp only [LoopPass.next.injEq] at hst
      subst hst
      exact ⟨h0, h1, h2⟩

theorem componentPass_inv (componentsByCategory : GoMap (List Component))
    (validCategories : List String) (st : MenuState) (char : Char) (buf0 buf1 : Nat)
    (hmode : st.currentCategory ≠ "")
    (inv : CursorsInRange componentsByCategory validCategories st) :
    (∀ st', componentPass (componentsByCategory.get st.currentCategory) st char buf0 buf1
          = LoopPass.next st' →
        CursorsInRange componentsByCategory validCategories st') ∧
      componentPass (componentsByCategory.get st.currentCategory) st char buf0 buf1
        ≠ LoopPass.indexPanic := by
  obtain ⟨h0, h1, h2⟩ := inv
  obtain ⟨hc0, hc1⟩ := h2 hmode
  have hzero : 0 ≤ (0 : Int) ∧
      ((0 : Int) < (validCategories.length : Int) ∨
        (validCategories.length = 0 ∧ (0 : Int) = 0)) := by
    refine ⟨le_refl _, ?_⟩
    rcases Nat.eq_zero_or_pos validCategories.length with h | h
    · exact Or.inr ⟨h, rfl⟩
    · exact Or.inl (by omega)
  unfold componentPass
  by_cases hesc : char.toNat = 27
  · rw [if_pos hesc]
    by_cases hb : buf0 = 91
    · rw [if_pos hb]
      by_cases hA : buf1 = 65
      · rw [if_pos hA]
        refine ⟨?_, by simp⟩
        intro st' hst
        simp only [LoopPass.next.injEq] at hst
        subst hst
        split_ifs with hpos
        · refine ⟨h0, h1, ?_⟩
          intro _
          simp only
          omega
        · exact ⟨h0, h1, h2⟩
      · rw [if_neg hA]
        by_cases hB : buf1 = 66
        · rw [if_pos hB]
          refine ⟨?_, by simp⟩
          intro st' hst
          simp only [LoopPass.next.injEq] at hst
          subst hst
          split_ifs with hlt
          · refine ⟨h0, h1, ?_⟩
            intro _
            simp only
            omega
          · exact ⟨h0, h1, h2⟩
        · rw [if_neg hB]
          by_cases hD : buf1 = 68
          · rw [if_pos hD]
            refine ⟨?_, by simp⟩
            intro st' hst
            simp only [LoopPass.next.injEq] at hst
            subst hst
            exact ⟨hzero.1, hzero.2, fun hne => absurd rfl hne⟩
          · rw [if_neg hD]
            refine ⟨?_, by simp⟩
            intro st' hst
            simp only [LoopPass.next.injEq] at hst
            subst hst
            exact ⟨h0, h1, h2⟩
    · rw [if_neg hb]
      refine ⟨?_, by simp⟩
      intro st' hst
      simp only [LoopPass.next.injEq] at hst
      subst hst
      exact ⟨h0, h1, h2⟩
  · rw [if_neg hesc]
    by_cases hsp : char = ' '
    · rw [if_pos hsp, if_pos hc1]
      obtain ⟨comp, hcomp, _⟩ :=
        goIndex_of_range (componentsByCategory.get st.currentCategory) _ hc0 hc1
      rw [hcomp]
      refine ⟨?_, by simp⟩
      intro st' hst
      simp only [LoopPass.next.injEq] at hst
      subst hst
      exact ⟨h0, h1, h2⟩
    · rw [if_neg hsp]
      split_ifs
      · refine ⟨?_, by simp⟩
        intro st' hst
        simp only [LoopPass.next.injEq] at hst
        subst hst
        exact ⟨hzero.1, hzero.2, fun hne => absurd rfl hne⟩
      · exact ⟨fun st' hst => (by cases hst), by simp⟩
      · refine ⟨?_, by simp⟩
        intro st' hst
        simp only [LoopPass.next.injEq] at hst
        subst hst
        exact ⟨h0, h1, h2⟩

/-- One pass of the main loop keeps the cursors in range and does not stop on an
index out of range. -/
theorem menuPass_inv (componentsByCategory : GoMap (List Component))
    (validCategories : List String)
    (hvc : ∀ cat ∈ validCategories, 0 < (componentsByCategory.get cat).length)
    (st : MenuState) (input : TermInput)
    (inv : CursorsInRange componentsByCategory validCategories st) :
    (∀ st', menuPass componentsByCategory validCategories st input = LoopPass.next st' →
        CursorsInRange componentsByCategory validCategories st') ∧
      menuPass componentsByCategory validCategories st input ≠ LoopPass.indexPanic := by
  cases input with
  | makeRawError err => exact ⟨fun st' hst => (by cases hst), by simp [menuPass]⟩
  | readError err => exact ⟨fun st' hst => (by cases hst), by simp [menuPass]⟩
  | key char buf0 buf1 =>
    simp only [menuPass]
    by_cases hmode : st.currentCategory = ""
    · rw [if_pos hmode]
      exact categoryPass_inv componentsByCategory validCategories hvc st char buf0 buf1
        hmode inv
    · rw [if_neg hmode]
      exact componentPass_inv componentsByCategory validCategories st char buf0 buf1 hmode inv

/-- Whatever the inputs, the main loop keeps the cursors in range and does not stop
on an index out of range. -/
theorem menuLoop_inv (componentsByCategory : GoMap (List Component))
    (validCategories : List String)
    (hvc : ∀ cat ∈ validCategories, 0 < (componentsByCategory.get cat).length)
    (keys : List TermInput) :
    ∀ st, CursorsInRange componentsByCategory validCategories st →
      (∀ st', menuLoop componentsByCategory validCategories st keys
            = SelectOutcome.waiting st' →
          CursorsInRange componentsByCategory validCategories st') ∧
        menuLoop componentsByCategory validCategories st keys ≠ SelectOutcome.panicked := by
  induction keys with
  | nil =>
    intro st inv
    refine ⟨?_, by simp [menuLoop]⟩
    intro st' hst
    simp only [menuLoop, SelectOutcome.waiting.injEq] at hst
    subst hst
    exact inv
  | cons input rest ih =>
    intro st inv
    obtain ⟨hnext, hpanic⟩ := menuPass_inv componentsByCategory validCategories hvc st input inv
    simp only [menuLoop]
    cases hp : menuPass componentsByCategory validCategories st input with
    | next st₁ => exact ih st₁ (hnext st₁ hp)
    | ret names err => exact ⟨fun st' hst => (by cases hst), by simp⟩
    | indexPanic => exact absurd hp hpanic

theorem cursorsInRange_init (componentsByCategory : GoMap (List Component))
    (validCategories : List String) :
    CursorsInRange componentsByCategory validCategories
      { currentCategory := "", selectedIndex := 0, componentIndex := 0, selectedSet := ∅ } := by
  refine ⟨le_refl _, ?_, fun hne => absurd rfl hne⟩
  rcases Nat.eq_zero_or_pos validCategories.length with h | h
  · exact Or.inr ⟨h, rfl⟩
  · exact Or.inl (by simp only; omega)

/-! ## Claim about the cursors -/

/-- C21 (cursor range): in every state the main loop of `selectComponents` reaches,
whatever the inputs, the category cursor is at least `0` and below the number of
shown categories (or is `0` when none is shown), and in component-list mode the
component cursor is at least `0` and below the number of components of the current
category; the loop never stops on an index out of range; `↑` on the first row and
`↓` on the last row leave the state as it is, in either mode; and `→` on a shown
category enters it with the component cursor at `0`. -/
theorem selectComponents_cursors (isSpace : Char → Bool) (goos : String)
    (allComponents : List Component) (terminal : Terminal) (st : MenuState)
    (hgoos : goos ≠ "windows")
    (hst : selectComponents isSpace true goos allComponents terminal
      = SelectOutcome.waiting st) :
    (0 ≤ st.selectedIndex ∧
      (st.selectedIndex
          < ((validCategoriesOf (groupByCategory allComponents)).length : Int) ∨
        ((validCategoriesOf (groupByCategory allComponents)).length = 0 ∧
          st.selectedIndex = 0)) ∧
      (st.currentCategory ≠ "" →
        0 ≤ st.componentIndex ∧
          st.componentIndex
            < (((groupByCategory allComponents).get st.currentCategory).length : Int))) ∧
    (∀ terminal', selectComponents isSpace true goos allComponents terminal'
      ≠ SelectOutcome.panicked) ∧
    (∀ s : MenuState, s.currentCategory = "" → s.selectedIndex = 0 →
      menuPass (groupByCategory allComponents)
          (validCategoriesOf (groupByCategory allComponents)) s keyUp = LoopPass.next s) ∧
    (∀ s : MenuState, s.currentCategory = "" →
      s.selectedIndex = ((validCategoriesOf (groupByCategory allComponents)).length : Int) - 1 →
      menuPass (groupByCategory allComponents)
          (validCategoriesOf (groupByCategory allComponents)) s keyDown = LoopPass.next s) ∧
    (∀ s : MenuState, s.currentCategory ≠ "" → s.componentIndex = 0 →
      menuPass (groupByCategory allComponents)
          (validCategoriesOf (groupByCategory allComponents)) s keyUp = LoopPass.next s) ∧
    (∀ s : MenuState, s.currentCategory ≠ "" →
      s.componentIndex
        = (((groupByCategory allComponents).get s.currentCategory).length : Int) - 1 →
      menuPass (groupByCategory allComponents)
          (validCategoriesOf (groupByCategory allComponents)) s keyDown = LoopPass.next s) ∧
    (∀ (s : MenuState) (cat : String), s.currentCategory = "" →
      goIndex (validCategoriesOf (groupByCategory allComponents)) s.selectedIndex = some cat →
      menuPass (groupByCategory allComponents)
          (validCategoriesOf (groupByCategory allComponents)) s keyRight
        = LoopPass.next { s with currentCategory := cat, componentIndex := 0 }) := by
  have hloop := fun keys => menuLoop_inv (groupByCategory allComponents)
    (validCategoriesOf (groupByCategory allComponents))
    (validCategoriesOf_nonempty (groupByCategory allComponents)) keys _
    (cursorsInRange_init (groupByCategory allComponents)
      (validCategoriesOf (groupByCategory allComponents)))
  have hesc : (Char.ofNat 27).toNat = 27 := by decide
  refine ⟨?_, ?_, ?_, ?_, ?_, ?_, ?_⟩
  · simp only [selectComponents, Bool.not_true, if_neg hgoos] at hst
    exact (hloop terminal.keys).1 st (by simpa using hst)
  · intro terminal'
    simp only [selectComponents, Bool.not_true, if_neg hgoos]
    simpa using (hloop terminal'.keys).2
  · intro s hmode hidx
    simp [menuPass, categoryPass, keyUp, hmode, hidx, hesc]
  · intro s hmode hidx
    simp [menuPass, categoryPass, keyDown, hmode, hidx, hesc]
  · intro s hmode hidx
    simp [menuPass, componentPass, keyUp, hmode, hidx, hesc]
  · intro s hmode hidx
    simp [menuPass, componentPass, keyDown, hmode, hidx, hesc]
  · intro s cat hmode hidx
    have hlt := (goIndex_lt hidx).2
    simp [menuPass, categoryPass, keyRight, hmode, hidx, hesc, hlt]

/-- Witness of C21: in a catalog with three shown categories, `↓` three times, `→`
and `↓` twice lead to the third category with its only component highlighted. -/
theorem selectComponents_cursors_witness :
    ("linux" : String) ≠ "windows" ∧
      selectComponents Char.isWhitespace true "linux" menuCatalog
          { keys := [keyDown, keyDown, keyDown, keyRight, keyDown, keyDown] }
        = SelectOutcome.waiting
            { currentCategory := "other", selectedIndex := 2, componentIndex := 0,
              selectedSet := ∅ } ∧
      ((2 : Int) < ((validCategoriesOf (groupByCategory menuCatalog)).length : Int) ∨
        ((validCategoriesOf (groupByCategory menuCatalog)).length = 0 ∧ (2 : Int) = 0)) ∧
      (("other" : String) ≠ "" →
        (0 : Int) ≤ 0 ∧
          (0 : Int) < (((groupByCategory menuCatalog).get "other").length : Int)) :=
  ⟨by decide, rfl,
    (selectComponents_cursors Char.isWhitespace "linux" menuCatalog
      { keys := [keyDown, keyDown, keyDown, keyRight, keyDown, keyDown] }
      { currentCategory := "other", selectedIndex := 2, componentIndex := 0, selectedSet := ∅ }
      (by decide) rfl).1.2⟩

end Wb2
